import Mathlib

/-!
# kickAI: the worker supervisor of `BitcoinMiner.cpp`

A shallow embedding of `src/BitcoinMiner.cpp`.  The program is effectful (log records,
the error stream, a worker thread, a pacing sleep, a SIGINT handler, C++ exceptions), so
the embedding passes the observable world explicitly and takes everything the platform
decides (what the random engine outputs, which library call throws, when SIGINT arrives)
from an environment `Env`.

* `World`   : the log trace, `std::cerr`, and whether the SIGINT handler is installed.
* `Ret`     : result of a member function: the exception it raised (if any), whether the
              call overflowed the stack instead of returning, the object and the world
              after the call.
* `Proc`    : a configuration of the worker thread: object, world, control point `Pc`,
              index of the loop iteration.
* `BitcoinMiner.workerStep` : one statement of `BitcoinMiner::worker`;
  `exec` runs statements, `deliverSigint` is the asynchronous SIGINT.
-/

set_option linter.dupNamespace false

namespace KickAI

/-! ## Platform -/

/-- Value of the macro `EXIT_SUCCESS` of `<cstdlib>`. -/
def EXIT_SUCCESS : Int := 0

/-- Value of the macro `EXIT_FAILURE` of `<cstdlib>`. -/
def EXIT_FAILURE : Int := 1

/-- A thrown C++ object, classified the way the handlers of the program classify it:
`catch (const std::exception &e)` matches `stdException` (with `e.what()`), and nothing in the
program matches `other`. -/
inductive Exn
  | stdException (what : String)
  | other (descr : String)
  deriving DecidableEq, Repr

/-- Severity of an spdlog record: `spdlog::info`, `spdlog::error`, `spdlog::critical`. -/
inductive Level
  | info
  | error
  | critical
  deriving DecidableEq, Repr

/-- Observable events, in emission order. -/
inductive Event
  | log (lvl : Level) (msg : String)
  | sleep (seconds : Nat)
  | threadStart
  | threadJoin
  deriving DecidableEq, Repr

/-- An output stream such as `std::cerr`: the text written so far and its `badbit`. -/
structure OStream where
  text : String
  bad : Bool
  deriving DecidableEq, Repr

/-- Insertion `os << t` of a string: a stream whose `badbit` is set writes nothing. -/
def OStream.put (os : OStream) (t : String) : OStream :=
  if os.bad then os else { os with text := os.text ++ t }

/-- Insertion `os << p` of a `char *`: a null pointer (`none`) sets `badbit` and
writes nothing (libstdc++: `if (!__s) __out.setstate(ios_base::badbit)`). -/
def OStream.putCStr (os : OStream) (p : Option String) : OStream :=
  match p with
  | some t => os.put t
  | none => { os with bad := true }

/-- Insertion `os << std::endl`. -/
def OStream.endl (os : OStream) : OStream :=
  os.put "\n"

/-- The world outside the object. -/
structure World where
  trace : List Event
  cerr : OStream
  sigint : Bool
  deriving DecidableEq, Repr

/-- World at process start: nothing logged, nothing written, default SIGINT disposition. -/
def World.init : World :=
  { trace := [], cerr := { text := "", bad := false }, sigint := false }

/-- Calls `spdlog::info` / `spdlog::error` / `spdlog::critical`: one record appended per call.
spdlog reports sink failures to its own error handler and does not throw to the caller. -/
def spdlog (lvl : Level) (msg : String) (w : World) : World :=
  { w with trace := w.trace ++ [Event.log lvl msg] }

/-- What the platform does during one pass of the worker loop. -/
structure IterEnv where
  /-- Statements `std::random_device rd; std::mt19937 mt(rd()); ... dist(mt)`: the 32-bit
  engine output handed to the draw, or the exception raised while setting the engine up. -/
  gen : Except Exn Nat
  /-- The exception raised while rendering the message (`std::ostringstream`, `oss.str()`),
  if any; it is raised before `logMessage` is entered. -/
  oss : Option Exn
  /-- The exception raised by `std::this_thread::sleep_for`, if any. -/
  sleep : Option Exn
  /-- The number of nested calls of the distribution's `operator()` the worker thread's
  stack has room for during this pass. -/
  stack : Nat

/-- Everything the platform decides in one run of the program. -/
structure Env where
  /-- The exception raised while building `address` and the `BitcoinMiner` object, if any. -/
  alloc : Option Exn
  /-- The exception raised by the `std::thread` constructor, if any. -/
  thread : Option Exn
  /-- The platform during the k-th pass of the worker loop. -/
  iter : Nat → IterEnv
  /-- SIGINT: `some k` delivers it after k statements of the worker; `none` never. -/
  sigint : Option Nat

/-! ## The class -/

/-- Members `ctx.prevHash`, `ctx.jobId`. -/
structure Context where
  prevHash : String
  jobId : String
  deriving DecidableEq, Repr

/-- Data members of `class BitcoinMiner`. -/
structure BitcoinMiner where
  address : String
  shutdownFlag : Bool
  ctx : Context
  deriving DecidableEq, Repr

/-- Result of a member function call: `exn` is the exception that left it, if any; `segv`
says that the call never returned because it overflowed the stack (the process receives
SIGSEGV).  A call returned normally when `exn` is `none` and `segv` is false. -/
structure Ret where
  exn : Option Exn
  miner : BitcoinMiner
  world : World
  segv : Bool := false
  deriving DecidableEq, Repr

/-- Conversion of an integer to 32-bit `int` (modulo 2^32). -/
def toInt32 (n : Int) : Int :=
  (n + 2 ^ 31) % 2 ^ 32 - 2 ^ 31

/-- Conversion of an integer to 64-bit `unsigned long` (modulo 2^64).  It is the type
`__uctype` in which libstdc++ computes the width of the range, because
`std::mt19937::result_type` is `uint_fast32_t`, which is `unsigned long` on x86-64. -/
def toUInt64 (n : Int) : Int :=
  n % 2 ^ 64

/-- Call `dist(mt)` on `std::uniform_int_distribution<int> dist(a, b)` over `std::mt19937`:
the `operator()(urng, param)` of libstdc++ (`bits/uniform_int_dist.h`) on x86-64.
`stack` is the number of nested calls of `operator()` the stack has room for, and `none`
is stack exhaustion: the call does not return.  `raw` is the engine output the draw
accepts (the rejection loops of the library are not unrolled).

The width `urange = uctype(b) - uctype(a)` is compared with the engine range 2^32 - 1:
a smaller width is scaled down (`_S_nd`: the high half of `raw * (urange + 1)`); an equal
width returns the engine output; a greater width first calls `operator()` again with the
bounds `(0, urange / 2^32)`, the upper one converted to `int`, and only then uses the
engine.  The library requires a ≤ b; then the width is at most 2^32 - 1. -/
def uniform_int_distribution : Nat → Int → Int → Nat → Option Int
  | 0, _, _, _ => none
  | stack + 1, a, b, raw =>
    let urngrange : Int := 2 ^ 32 - 1
    let urange : Int := toUInt64 (toUInt64 b - toUInt64 a)
    if urngrange > urange then
      some (toInt32 (toUInt64 (((raw % 2 ^ 32 : Nat) : Int) * (urange + 1) / 2 ^ 32 + a)))
    else if urngrange < urange then
      match uniform_int_distribution stack 0 (toInt32 (urange / (urngrange + 1))) raw with
      | none => none
      | some high =>
        let tmp : Int := toUInt64 ((urngrange + 1) * toUInt64 high)
        some (toInt32 (toUInt64 (toUInt64 (tmp + ((raw % 2 ^ 32 : Nat) : Int)) + a)))
    else some (toInt32 (toUInt64 (((raw % 2 ^ 32 : Nat) : Int) + a)))

/-- Lower bound passed to the distribution in `runMiner`. -/
def distLower : Int := 0

/-- Upper bound passed to the distribution in `runMiner`: the literal `0xFFFFFFFF`
converted to the parameter type `int`. -/
def distUpper : Int := toInt32 0xFFFFFFFF

/-- Statement `int nonce = dist(mt);` when the engine outputs `raw` and the stack has room
for `stack` nested calls: the nonce, or `none` when the call does not return. -/
def drawNonce (stack raw : Nat) : Option Int :=
  uniform_int_distribution stack distLower distUpper raw

/-- Member `BitcoinMiner::logMessage`. -/
def BitcoinMiner.logMessage (m : BitcoinMiner) (msg : String) (w : World) : Ret :=
  { exn := none, miner := m, world := spdlog Level.info msg w }

/-- Member `BitcoinMiner::logError`. -/
def BitcoinMiner.logError (m : BitcoinMiner) (msg : String) (w : World) : Ret :=
  { exn := none, miner := m, world := spdlog Level.error msg w }

/-- Member `BitcoinMiner::logException`, applied to an exception whose `what()` is `what`. -/
def BitcoinMiner.logException (m : BitcoinMiner) (what : String) (w : World) : Ret :=
  { exn := none, miner := m, world := spdlog Level.critical ("Exception thrown: " ++ what) w }

/-- Member `BitcoinMiner::connectToPool`. -/
def BitcoinMiner.connectToPool (m : BitcoinMiner) (w : World) : Ret :=
  { exn := none, miner := m, world := spdlog Level.info "Connecting to mining pool..." w }

/-- Member `BitcoinMiner::runMiner`. -/
def BitcoinMiner.runMiner (m : BitcoinMiner) (ie : IterEnv) (w : World) : Ret :=
  match ie.gen with
  | Except.error e => { exn := some e, miner := m, world := w }
  | Except.ok raw =>
    match drawNonce ie.stack raw with
    | none => { exn := none, miner := m, world := w, segv := true }
    | some nonce =>
      match ie.oss with
      | some e => { exn := some e, miner := m, world := w }
      | none => m.logMessage ("Mining with nonce: " ++ toString nonce) w

/-- Member `BitcoinMiner::registerSignals`: installs the SIGINT handler. -/
def BitcoinMiner.registerSignals (m : BitcoinMiner) (w : World) : Ret :=
  { exn := none, miner := m, world := { w with sigint := true } }

/-! ## The worker thread -/

/-- Control points of `BitcoinMiner::worker`, and the ways the thread or process can end. -/
inductive Pc
  /-- Entered `worker`, about to call `connectToPool`. -/
  | connect
  /-- About to evaluate the loop condition. -/
  | test
  /-- Inside the try block, about to call `runMiner`. -/
  | run
  /-- Inside the try block, `runMiner` returned, about to call `sleep_for`. -/
  | pace
  /-- Inside the catch clause with `e.what() = what`, about to call `logException`. -/
  | caught (what : String)
  /-- The loop was left and `worker` returned. -/
  | returned
  /-- An exception left `worker`: `std::terminate`. -/
  | terminated
  /-- The handler called `exit(code)`. -/
  | exited (code : Int)
  /-- A signal with default disposition ended the process: SIGINT while no handler is
  installed, or SIGSEGV when a call overflowed the stack. -/
  | killed
  deriving DecidableEq, Repr

/-- Configuration of the worker thread. -/
structure Proc where
  miner : BitcoinMiner
  world : World
  pc : Pc
  iter : Nat
  deriving DecidableEq, Repr

/-- Where an exception raised at a point inside the try block of `worker` goes. -/
def throwInTry (e : Exn) : Pc :=
  match e with
  | Exn.stdException what => Pc.caught what
  | Exn.other _ => Pc.terminated

/-- One statement of `BitcoinMiner::worker`. -/
def BitcoinMiner.workerStep (env : Env) (p : Proc) : Proc :=
  match p.pc with
  | Pc.connect =>
    let r := p.miner.connectToPool p.world
    match r.exn with
    | none => { p with miner := r.miner, world := r.world, pc := Pc.test }
    | some _ => { p with miner := r.miner, world := r.world, pc := Pc.terminated }
  | Pc.test =>
    if p.miner.shutdownFlag then { p with pc := Pc.returned } else { p with pc := Pc.run }
  | Pc.run =>
    let r := p.miner.runMiner (env.iter p.iter) p.world
    if r.segv then { p with miner := r.miner, world := r.world, pc := Pc.killed }
    else
      match r.exn with
      | none => { p with miner := r.miner, world := r.world, pc := Pc.pace }
      | some e => { p with miner := r.miner, world := r.world, pc := throwInTry e }
  | Pc.pace =>
    match (env.iter p.iter).sleep with
    | none =>
      { p with world := { p.world with trace := p.world.trace ++ [Event.sleep 1] },
               pc := Pc.test, iter := p.iter + 1 }
    | some e => { p with pc := throwInTry e }
  | Pc.caught what =>
    let r := p.miner.logException what p.world
    match r.exn with
    | none => { p with miner := r.miner, world := r.world, pc := Pc.test, iter := p.iter + 1 }
    | some _ => { p with miner := r.miner, world := r.world, pc := Pc.terminated }
  | Pc.returned => p
  | Pc.terminated => p
  | Pc.exited _ => p
  | Pc.killed => p

/-- The lambda installed by `registerSignals`. -/
def sigintHandler (p : Proc) : Proc :=
  { p with world := spdlog Level.info "Terminating Miner, Please Wait.." p.world,
           pc := Pc.exited 0 }

/-- Delivery of SIGINT to the process. -/
def deliverSigint (p : Proc) : Proc :=
  match p.pc with
  | Pc.terminated => p
  | Pc.exited _ => p
  | Pc.killed => p
  | _ => if p.world.sigint then sigintHandler p else { p with pc := Pc.killed }

/-- Runs `fuel` statements of the worker; `sig = some k` delivers SIGINT after k of them. -/
def exec (env : Env) : Option Nat → Nat → Proc → Proc
  | _, 0, p => p
  | none, fuel + 1, p => exec env none fuel (BitcoinMiner.workerStep env p)
  | some 0, fuel + 1, p => exec env none fuel (deliverSigint p)
  | some (k + 1), fuel + 1, p => exec env (some k) fuel (BitcoinMiner.workerStep env p)

/-- Member `BitcoinMiner::worker`, run for `fuel` statements from its entry. -/
def BitcoinMiner.worker (m : BitcoinMiner) (env : Env) (fuel : Nat) (w : World) : Proc :=
  exec env env.sigint fuel { miner := m, world := w, pc := Pc.connect, iter := 0 }

/-! ## The launcher -/

/-- How the process stands when the model stops. -/
inductive Status
  /-- Function `main` returned `code`. -/
  | returned (code : Int)
  /-- The handler called `exit(code)`. -/
  | exited (code : Int)
  /-- An uncaught exception: `std::terminate`. -/
  | aborted
  /-- Ended by a signal with default disposition (SIGINT without handler, SIGSEGV). -/
  | killed
  /-- Fuel ran out: the worker is still inside `worker`, `main` is blocked in `join`. -/
  | running
  deriving DecidableEq, Repr

/-- How a call comes back to its caller. -/
inductive Flow
  | normal
  | threw (e : Exn)
  | halt (s : Status)
  deriving DecidableEq, Repr

/-- Result of `startMining`. -/
structure Started where
  flow : Flow
  miner : BitcoinMiner
  world : World
  deriving DecidableEq, Repr

/-- Statement `workerThread.join()` of `startMining`, given where the worker stands when
the model stops: only a worker that returned lets `join` return. -/
def joinWorker (p : Proc) : Started :=
  match p.pc with
  | Pc.returned =>
    { flow := Flow.normal, miner := p.miner,
      world := { p.world with trace := p.world.trace ++ [Event.threadJoin] } }
  | Pc.terminated => { flow := Flow.halt Status.aborted, miner := p.miner, world := p.world }
  | Pc.exited c => { flow := Flow.halt (Status.exited c), miner := p.miner, world := p.world }
  | Pc.killed => { flow := Flow.halt Status.killed, miner := p.miner, world := p.world }
  | _ => { flow := Flow.halt Status.running, miner := p.miner, world := p.world }

/-- Member `BitcoinMiner::startMining`. -/
def BitcoinMiner.startMining (m : BitcoinMiner) (env : Env) (fuel : Nat) (w : World) : Started :=
  let r := m.registerSignals w
  match env.thread with
  | some (Exn.stdException what) =>
    let r2 := r.miner.logException what r.world
    match r2.exn with
    | none => { flow := Flow.normal, miner := r2.miner, world := r2.world }
    | some e => { flow := Flow.threw e, miner := r2.miner, world := r2.world }
  | some (Exn.other d) => { flow := Flow.threw (Exn.other d), miner := r.miner, world := r.world }
  | none =>
    joinWorker
      (r.miner.worker env fuel { r.world with trace := r.world.trace ++ [Event.threadStart] })

/-- Constructor `BitcoinMiner::BitcoinMiner`. -/
def BitcoinMiner.BitcoinMiner (address : String) (w : World) : Ret :=
  { exn := none,
    miner := { address := address, shutdownFlag := false, ctx := { prevHash := "", jobId := "" } },
    world := spdlog Level.info ("Bitcoin Wallet: " ++ address) w }

/-- Result of `main`: process status, the `BitcoinMiner` object if one was constructed,
and the world. -/
structure Outcome where
  status : Status
  miner : Option BitcoinMiner
  world : World
  deriving DecidableEq, Repr

/-- The handler `catch (const std::exception &e)` of `main`, for an exception `e` raised in
its try block with no object (`obj`) or with one. -/
def mainCatch (e : Exn) (obj : Option BitcoinMiner) (w : World) : Outcome :=
  match e with
  | Exn.stdException what =>
    { status := Status.returned EXIT_FAILURE, miner := obj,
      world := { w with cerr := ((w.cerr.put "An error occurred: ").put what).endl } }
  | Exn.other _ => { status := Status.aborted, miner := obj, world := w }

/-- Function `main`; `argc` is `argv.length`, `argv[i]` beyond it is the null pointer. -/
def main (env : Env) (fuel : Nat) (argv : List String) : Outcome :=
  let w := World.init
  if h : argv.length ≠ 2 then
    { status := Status.returned EXIT_FAILURE, miner := none,
      world := { w with cerr :=
        (((w.cerr.put "Usage: ").putCStr (argv.get? 0)).put " <BTC_ADDRESS>").endl } }
  else
    let address := argv.get ⟨1, by omega⟩
    match env.alloc with
    | some e => mainCatch e none w
    | none =>
      let c := BitcoinMiner.BitcoinMiner address w
      match c.exn with
      | some e => mainCatch e none c.world
      | none =>
        let s := c.miner.startMining env fuel c.world
        match s.flow with
        | Flow.normal =>
          { status := Status.returned EXIT_SUCCESS, miner := some s.miner, world := s.world }
        | Flow.threw e => mainCatch e (some s.miner) s.world
        | Flow.halt st => { status := st, miner := some s.miner, world := s.world }

/-! ## Sample environments -/

/-- A pass of the loop in which nothing throws and the engine outputs `raw`. -/
def IterEnv.quiet (raw : Nat) : IterEnv :=
  { gen := Except.ok raw, oss := none, sleep := none, stack := 64 }

/-- A pass of the loop in which obtaining the random value throws `e`. -/
def IterEnv.failing (e : Exn) : IterEnv :=
  { gen := Except.error e, oss := none, sleep := none, stack := 64 }

/-- A platform on which no library call throws, the engine outputs 7 each time and no SIGINT
arrives. -/
def Env.quiet : Env :=
  { alloc := none, thread := none, iter := fun _ => IterEnv.quiet 7, sigint := none }

/-- A worker object as `main` would build it for the identity "addr1". -/
def sampleMiner : BitcoinMiner :=
  { address := "addr1", shutdownFlag := false, ctx := { prevHash := "", jobId := "" } }

/-- A worker configuration at control point `pc` with an empty world and the handler installed. -/
def sampleProc (pc : Pc) : Proc :=
  { miner := sampleMiner, world := { World.init with sigint := true }, pc := pc, iter := 0 }

/-- Control points at which the worker thread has ended. -/
def Pc.final (pc : Pc) : Bool :=
  match pc with
  | Pc.returned => true
  | Pc.terminated => true
  | Pc.exited _ => true
  | Pc.killed => true
  | _ => false

/-- A write of `true` to `shutdownFlag` from outside the worker. -/
def setShutdownFlag (p : Proc) : Proc :=
  { p with miner := { p.miner with shutdownFlag := true } }

/-- The record `connectToPool` emits. -/
def connectingRecord : Event :=
  Event.log Level.info "Connecting to mining pool..."

/-- The record `logException` emits for an exception whose `what()` is `what`. -/
def failureRecord (what : String) : Event :=
  Event.log Level.critical ("Exception thrown: " ++ what)

/-- The record `runMiner` logs for a drawn nonce `nonce`. -/
def attemptRecord (nonce : Int) : Event :=
  Event.log Level.info ("Mining with nonce: " ++ toString nonce)

/-- The record the SIGINT handler emits. -/
def terminatingRecord : Event :=
  Event.log Level.info "Terminating Miner, Please Wait.."

/-- A platform on which obtaining the random value throws `e` in the passes below `n` and
which is quiet from then on. -/
def Env.failingFirst (n : Nat) (e : Exn) : Env :=
  { Env.quiet with iter := fun k => if k < n then IterEnv.failing e else IterEnv.quiet 7 }

/-- A platform on which the `std::thread` constructor throws `std::system_error`. -/
def Env.noThread : Env :=
  { Env.quiet with thread := some (Exn.stdException "Resource temporarily unavailable") }

/-- A platform that delivers SIGINT after `k` statements of the worker. -/
def Env.interrupted (k : Nat) : Env :=
  { Env.quiet with sigint := some k }

/-! ## `image_downloader.cpp`: the download loop -/

/-- Outcome of the curl calls inside one `performGetRequest`. -/
inductive CurlResult
  /-- Call `curl_easy_init` returned null: nothing is requested. -/
  | noHandle
  /-- Call `curl_easy_perform` returned `CURLE_OK` with this body. -/
  | ok (body : String)
  /-- Call `curl_easy_perform` failed; the text is `curl_easy_strerror(res)`. -/
  | failed (strerror : String)
  deriving DecidableEq, Repr

/-- Observable events of the downloader, in order. -/
inductive DEvent
  /-- Entry of `downloadImage(imageUrl, outputName)`. -/
  | call (imageUrl outputName : String)
  /-- A GET request performed on `url`. -/
  | request (url : String)
  /-- Bytes `data` written to the file opened at `path`. -/
  | write (path data : String)
  /-- A line appended to `image_downloader.log`. -/
  | logLine (message : String)
  deriving DecidableEq, Repr

/-- The world of the downloader: events so far and the number of `performGetRequest`
calls so far. -/
structure DWorld where
  events : List DEvent
  gets : Nat
  deriving DecidableEq, Repr

/-- What the platform decides for the downloader. -/
structure DEnv where
  /-- Outcome of the k-th `performGetRequest` of the run, for the given url. -/
  curl : Nat → String → CurlResult
  /-- Whether `image_downloader.log` can be opened for appending. -/
  logOpens : Bool

/-- Data members of `class ImageDownloader`. -/
structure ImageDownloader where
  query : String
  saveDir : String
  numImages : Int
  imageLinks : List String
  deriving DecidableEq, Repr

/-- Result of a member function of the downloader: exception raised (if any), value
returned, world after the call. -/
structure DRet where
  exn : Option Exn
  value : String
  world : DWorld
  deriving DecidableEq, Repr

/-- Conversion of an integer to `size_t` (64 bits, modulo 2^64), as in the comparison
`i < numImages` between a `size_t` and an `int`. -/
def toSizeT (n : Int) : Int :=
  n % 2 ^ 64

/-- Member `ImageDownloader::log`. -/
def ImageDownloader.log (_d : ImageDownloader) (env : DEnv) (message : String) (w : DWorld) :
    DWorld :=
  if env.logOpens then { w with events := w.events ++ [DEvent.logLine message] } else w

/-- Member `ImageDownloader::performGetRequest`. -/
def ImageDownloader.performGetRequest (d : ImageDownloader) (env : DEnv) (url : String)
    (w : DWorld) : DRet :=
  let w1 : DWorld := { w with gets := w.gets + 1 }
  match env.curl w.gets url with
  | CurlResult.noHandle => { exn := none, value := "", world := w1 }
  | CurlResult.ok body =>
    { exn := none, value := body,
      world := { w1 with events := w1.events ++ [DEvent.request url] } }
  | CurlResult.failed strerror =>
    { exn := some (Exn.stdException "Failed to perform GET request."), value := "",
      world := d.log env ("Curl error: " ++ strerror)
        { w1 with events := w1.events ++ [DEvent.request url] } }

/-- Member `ImageDownloader::downloadImage`. -/
def ImageDownloader.downloadImage (d : ImageDownloader) (env : DEnv)
    (imageUrl outputName : String) (w : DWorld) : DRet :=
  let w0 : DWorld := { w with events := w.events ++ [DEvent.call imageUrl outputName] }
  let r := d.performGetRequest env imageUrl w0
  match r.exn with
  | none =>
    let w1 : DWorld :=
      { r.world with
        events := r.world.events ++ [DEvent.write (d.saveDir ++ "/" ++ outputName) r.value] }
    { exn := none, value := "", world := d.log env ("Image downloaded: " ++ outputName) w1 }
  | some (Exn.stdException what) =>
    { exn := none, value := "",
      world := d.log env ("Error downloading image: " ++ what) r.world }
  | some (Exn.other descr) => { exn := some (Exn.other descr), value := "", world := r.world }

/-- The loop of `ImageDownloader::downloadImages` at index `i`, `links` being the elements
of `imageLinks` from index `i` on: `i < imageLinks.size()` is `links` being non-empty,
`imageLinks[i]` is its head, and `i < numImages` compares in `size_t`. -/
def ImageDownloader.downloadImagesFrom (d : ImageDownloader) (env : DEnv) :
    List String → Nat → DWorld → DRet
  | [], _, w => { exn := none, value := "", world := w }
  | url :: rest, i, w =>
    if (i : Int) < toSizeT d.numImages then
      let r := d.downloadImage env url (d.query ++ "_" ++ toString (i + 1) ++ ".jpg") w
      match r.exn with
      | none => ImageDownloader.downloadImagesFrom d env rest (i + 1) r.world
      | some e => { exn := some e, value := "", world := r.world }
    else { exn := none, value := "", world := w }

/-- Member `ImageDownloader::downloadImages`. -/
def ImageDownloader.downloadImages (d : ImageDownloader) (env : DEnv) (w : DWorld) : DRet :=
  d.downloadImagesFrom env d.imageLinks 0 w

/-- The download attempts recorded in a list of events: the (url, output name) pairs of the
`downloadImage` calls, in order. -/
def attempts : List DEvent → List (String × String)
  | [] => []
  | DEvent.call u n :: es => (u, n) :: attempts es
  | _ :: es => attempts es

/-- The attempt made for the link at index `k`: the link, and the name the loop gives it. -/
def ImageDownloader.attemptAt (d : ImageDownloader) (p : Nat × String) : String × String :=
  (p.2, d.query ++ "_" ++ toString (p.1 + 1) ++ ".jpg")

/-- A downloader world with nothing done yet. -/
def DWorld.init : DWorld :=
  { events := [], gets := 0 }

/-- A platform on which every request to "u1" fails and every other request succeeds. -/
def DEnv.sample : DEnv :=
  { curl := fun _ url =>
      if url = "u1" then CurlResult.failed "Could not resolve host name" else CurlResult.ok "jpeg",
    logOpens := true }

/-- A downloader for the query "nature" holding two links, with `numImages` as given. -/
def sampleDownloader (numImages : Int) : ImageDownloader :=
  { query := "nature", saveDir := "downloaded_images", numImages := numImages,
    imageLinks := ["u1", "u2"] }

/-! ## `ImageProcessor.cpp`: splitting a line of the URL file -/

/-- An input stream (`std::ifstream`, `std::istringstream`): the characters not yet
extracted and the state bits `eofbit` and `failbit`.  A `std::string` is its list of
characters. -/
structure IStream where
  rest : List Char
  eof : Bool
  fail : Bool
  deriving DecidableEq, Repr

/-- Test `is.good()`: no state bit is set. -/
def IStream.good (is : IStream) : Bool :=
  !is.eof && !is.fail

/-- Constructor `std::istringstream iss(line)`. -/
def istringstream (line : List Char) : IStream :=
  { rest := line, eof := false, fail := false }

/-- Extraction of characters up to the first `delim`: the characters before it, and what
follows it when it was found (the delimiter itself is extracted and dropped). -/
def extractUntil (delim : Char) : List Char → List Char × Option (List Char)
  | [] => ([], none)
  | c :: cs =>
    if c = delim then ([], some cs)
    else ((c :: (extractUntil delim cs).1), (extractUntil delim cs).2)

/-- Call `std::getline(is, str, delim)`: the stream after the call and the new value of
`str`.  A stream that is not good fails the sentry: `failbit` is set and `str` is left as
it was.  Otherwise `str` is erased and receives the characters up to the delimiter or the
end of input; reaching the end sets `eofbit`, and when nothing at all was extracted (not
even a delimiter) `failbit` is set too. -/
def getline (is : IStream) (str : List Char) (delim : Char) : IStream × List Char :=
  if is.good then
    match extractUntil delim is.rest with
    | (taken, some after) => ({ rest := after, eof := false, fail := false }, taken)
    | (taken, none) => ({ rest := [], eof := true, fail := taken.isEmpty }, taken)
  else ({ is with fail := true }, str)

/-- The statements of `ImageProcessor::processImages` that split a line:
`std::istringstream iss(line); std::string url, label; std::getline(iss, url, ',');
std::getline(iss, label);` giving (url, label). -/
def splitLine (line : List Char) : List Char × List Char :=
  let iss := istringstream line
  let r1 := getline iss [] ','
  let r2 := getline r1.1 [] '\n'
  (r1.2, r2.2)

/-- One evaluation of the loop head `while (std::getline(file, line))` of
`ImageProcessor::processImages` followed by the split: `none` when the loop ends, otherwise
the stream after the read, the line read, and its (url, label). -/
def processImagesLine (file : IStream) (line : List Char) :
    Option (IStream × List Char × List Char × List Char) :=
  let r := getline file line '\n'
  if r.1.fail then none
  else some (r.1, r.2, (splitLine r.2).1, (splitLine r.2).2)

/-! ## Lemmas on running the worker -/

theorem workerStep_final (env : Env) (p : Proc) (h : p.pc.final = true) :
    BitcoinMiner.workerStep env p = p := by
  unfold BitcoinMiner.workerStep
  cases hp : p.pc <;> simp_all [Pc.final]

theorem exec_zero (env : Env) (sig : Option Nat) (p : Proc) : exec env sig 0 p = p := by
  cases sig with
  | none => rfl
  | some k => cases k <;> rfl

theorem exec_none_succ (env : Env) (n : Nat) (p : Proc) :
    exec env none (n + 1) p = exec env none n (BitcoinMiner.workerStep env p) := rfl

theorem exec_none_final (env : Env) (n : Nat) (p : Proc) (h : p.pc.final = true) :
    exec env none n p = p := by
  induction n with
  | zero => rfl
  | succ n ih => rw [exec_none_succ, workerStep_final env p h, ih]

theorem exec_none_add (env : Env) (a b : Nat) (p : Proc) :
    exec env none (a + b) p = exec env none b (exec env none a p) := by
  induction a generalizing p with
  | zero => simp [exec_zero]
  | succ a ih =>
    rw [Nat.add_right_comm, exec_none_succ, ih, exec_none_succ]

theorem exec_none_succ_right (env : Env) (n : Nat) (p : Proc) :
    exec env none (n + 1) p = BitcoinMiner.workerStep env (exec env none n p) := by
  rw [exec_none_add]
  rfl

theorem exec_some_split (env : Env) (k n : Nat) (p : Proc) :
    exec env (some k) (k + 1 + n) p = exec env none n (deliverSigint (exec env none k p)) := by
  induction k generalizing p with
  | zero =>
    rw [show 0 + 1 + n = n + 1 by omega]
    rfl
  | succ k ih =>
    rw [show k + 1 + 1 + n = (k + 1 + n) + 1 by omega]
    show exec env (some k) (k + 1 + n) (BitcoinMiner.workerStep env p) = _
    rw [ih, exec_none_succ]

theorem exec_some_early (env : Env) (k n : Nat) (p : Proc) (h : n ≤ k) :
    exec env (some k) n p = exec env none n p := by
  induction n generalizing p k with
  | zero => simp [exec_zero]
  | succ n ih =>
    cases k with
    | zero => omega
    | succ k =>
      show exec env (some k) n (BitcoinMiner.workerStep env p) = _
      rw [ih k _ (by omega), exec_none_succ]

/-! ## The draw -/

theorem distUpper_eq : distUpper = -1 := by decide

theorem uniform_int_distribution_inverted (stack raw : Nat) :
    uniform_int_distribution stack 0 (-1) raw = none := by
  induction stack with
  | zero => rfl
  | succ n ih =>
    have h1 : toUInt64 (toUInt64 (-1) - toUInt64 0) = 18446744073709551615 := by decide
    have h2 : toInt32 ((18446744073709551615 : Int) / (2 ^ 32 - 1 + 1)) = -1 := by decide
    unfold uniform_int_distribution
    simp only [h1, h2, ih]
    rw [if_neg (by norm_num), if_pos (by norm_num)]

theorem uniform_int_distribution_decreasing (stack raw : Nat) (a b : Int)
    (ha : -2147483648 ≤ a) (ha2 : a ≤ 2147483647) (hb : -2147483648 ≤ b) (hb2 : b ≤ 2147483647)
    (hab : b < a) : uniform_int_distribution stack a b raw = none := by
  cases stack with
  | zero => rfl
  | succ n =>
    have hur : toUInt64 (toUInt64 b - toUInt64 a) = 18446744073709551616 + (b - a) := by
      unfold toUInt64
      omega
    have hdiv : (18446744073709551616 + (b - a)) / (2 ^ 32 - 1 + 1) = 4294967295 := by
      omega
    have h2 : toInt32 4294967295 = -1 := by decide
    unfold uniform_int_distribution
    simp only [hur, hdiv, h2, uniform_int_distribution_inverted]
    have h3 : ¬ ((2 : Int) ^ 32 - 1 > 18446744073709551616 + (b - a)) := by omega
    have h4 : ((2 : Int) ^ 32 - 1 < 18446744073709551616 + (b - a)) := by omega
    simp only [h3, h4, if_false, if_true]

theorem uniform_int_distribution_range (stack raw : Nat) (a b : Int)
    (ha : -2147483648 ≤ a) (hb : b ≤ 2147483647) (hab : a ≤ b) :
    ∃ v, uniform_int_distribution (stack + 1) a b raw = some v ∧ a ≤ v ∧ v ≤ b := by
  have hur : toUInt64 (toUInt64 b - toUInt64 a) = b - a := by
    unfold toUInt64
    omega
  have hr0 : (0 : Int) ≤ ((raw % 2 ^ 32 : Nat) : Int) := Int.ofNat_nonneg _
  have hr1 : ((raw % 2 ^ 32 : Nat) : Int) < 4294967296 := by
    have := Nat.mod_lt raw (show 0 < 2 ^ 32 by norm_num)
    omega
  unfold uniform_int_distribution
  simp only [hur]
  by_cases hfull : b - a = 4294967295
  · rw [if_neg (by omega), if_neg (by omega)]
    refine ⟨_, rfl, ?_, ?_⟩ <;>
    · unfold toInt32 toUInt64
      omega
  · rw [if_pos (by omega)]
    have hq0 : (0 : Int) ≤ ((raw % 2 ^ 32 : Nat) : Int) * (b - a + 1) / 2 ^ 32 :=
      Int.ediv_nonneg (Int.mul_nonneg hr0 (by omega)) (by norm_num)
    have hq1 : ((raw % 2 ^ 32 : Nat) : Int) * (b - a + 1) / 2 ^ 32 < b - a + 1 := by
      apply Int.ediv_lt_of_lt_mul (by norm_num)
      have : ((raw % 2 ^ 32 : Nat) : Int) * (b - a + 1) < 4294967296 * (b - a + 1) :=
        Int.mul_lt_mul_of_pos_right hr1 (by omega)
      simpa [mul_comm] using this
    generalize ((raw % 2 ^ 32 : Nat) : Int) * (b - a + 1) / 2 ^ 32 = q at hq0 hq1
    refine ⟨_, rfl, ?_, ?_⟩ <;>
    · unfold toInt32 toUInt64
      omega

theorem drawNonce_none (stack raw : Nat) : drawNonce stack raw = none := by
  unfold drawNonce
  rw [distUpper_eq]
  exact uniform_int_distribution_inverted stack raw

theorem runMiner_eq (m : BitcoinMiner) (ie : IterEnv) (w : World) :
    m.runMiner ie w =
      match ie.gen with
      | Except.error e => { exn := some e, miner := m, world := w }
      | Except.ok _ => { exn := none, miner := m, world := w, segv := true } := by
  unfold BitcoinMiner.runMiner
  cases ie.gen with
  | error e => rfl
  | ok raw => simp only [drawNonce_none]

theorem runMiner_miner (m : BitcoinMiner) (ie : IterEnv) (w : World) :
    (m.runMiner ie w).miner = m := by
  rw [runMiner_eq]
  cases ie.gen <;> rfl

theorem runMiner_world (m : BitcoinMiner) (ie : IterEnv) (w : World) :
    (m.runMiner ie w).world = w := by
  rw [runMiner_eq]
  cases ie.gen <;> rfl

theorem runMiner_raise (m : BitcoinMiner) (ie : IterEnv) (w : World) (e : Exn)
    (h : (m.runMiner ie w).exn = some e) :
    ie.gen = Except.error e ∧ (m.runMiner ie w).segv = false := by
  rw [runMiner_eq] at h ⊢
  cases hg : ie.gen with
  | error e2 =>
    rw [hg] at h
    simp only [Option.some.injEq] at h
    rw [h]
    exact ⟨rfl, rfl⟩
  | ok raw =>
    rw [hg] at h
    simp at h

theorem workerStep_run (env : Env) (p : Proc) (hpc : p.pc = Pc.run) :
    BitcoinMiner.workerStep env p =
      match (env.iter p.iter).gen with
      | Except.error e => { p with pc := throwInTry e }
      | Except.ok _ => { p with pc := Pc.killed } := by
  unfold BitcoinMiner.workerStep
  simp only [hpc, runMiner_miner, runMiner_world]
  rw [runMiner_eq]
  cases (env.iter p.iter).gen <;> simp

theorem workerStep_miner (env : Env) (p : Proc) :
    (BitcoinMiner.workerStep env p).miner = p.miner := by
  by_cases hrun : p.pc = Pc.run
  · rw [workerStep_run env p hrun]
    split <;> rfl
  · unfold BitcoinMiner.workerStep
    cases hp : p.pc with
    | connect => rfl
    | test => simp only []; split <;> rfl
    | run => exact absurd hp hrun
    | pace => simp only []; split <;> rfl
    | caught what => rfl
    | returned => rfl
    | terminated => rfl
    | exited c => rfl
    | killed => rfl

theorem deliverSigint_miner (p : Proc) : (deliverSigint p).miner = p.miner := by
  unfold deliverSigint sigintHandler
  cases hp : p.pc <;> simp <;> split <;> rfl

theorem exec_miner (env : Env) (sig : Option Nat) (n : Nat) (p : Proc) :
    (exec env sig n p).miner = p.miner := by
  induction n generalizing p sig with
  | zero => simp [exec_zero]
  | succ n ih =>
    cases sig with
    | none => rw [exec_none_succ, ih, workerStep_miner]
    | some k =>
      cases k with
      | zero =>
        show (exec env none n (deliverSigint p)).miner = _
        rw [ih, deliverSigint_miner]
      | succ k =>
        show (exec env (some k) n (BitcoinMiner.workerStep env p)).miner = _
        rw [ih, workerStep_miner]

/-! ## The launcher: usage errors -/

theorem main_of_bad_argc (env : Env) (fuel : Nat) (argv : List String) (h : argv.length ≠ 2) :
    main env fuel argv =
      { status := Status.returned EXIT_FAILURE, miner := none,
        world := { World.init with cerr :=
          (((World.init.cerr.put "Usage: ").putCStr (argv.get? 0)).put " <BTC_ADDRESS>").endl } } := by
  unfold main
  simp [h]

/-- C1: for every argument vector whose length is not 2, `main` returns `EXIT_FAILURE`
(which is not zero), writes the usage text to `std::cerr` (the whole line
"Usage: <argv[0]> <BTC_ADDRESS>" when `argv[0]` exists; with an empty vector `argv[0]` is
null and the stream stops after "Usage: "), constructs no `BitcoinMiner`, emits no log
record, starts no thread and installs no handler. -/
theorem main_usage_error (env : Env) (fuel : Nat) (argv : List String)
    (h : argv.length ≠ 2) :
    (main env fuel argv).status = Status.returned EXIT_FAILURE ∧
    EXIT_FAILURE ≠ 0 ∧
    (main env fuel argv).miner = none ∧
    (main env fuel argv).world.trace = [] ∧
    (main env fuel argv).world.sigint = false ∧
    (∀ prog rest, argv = prog :: rest →
      (main env fuel argv).world.cerr.text = "Usage: " ++ prog ++ " <BTC_ADDRESS>" ++ "\n") ∧
    (argv = [] → (main env fuel argv).world.cerr.text = "Usage: ") := by
  rw [main_of_bad_argc env fuel argv h]
  refine ⟨rfl, by decide, rfl, rfl, rfl, ?_, ?_⟩
  · intro prog rest hargv
    subst hargv
    simp [World.init, OStream.put, OStream.putCStr, OStream.endl, String.append_assoc]
  · intro hargv
    subst hargv
    simp [World.init, OStream.put, OStream.putCStr, OStream.endl]

theorem main_usage_error_witness :
    (main Env.quiet 5 ["miner"]).status = Status.returned EXIT_FAILURE ∧
    (main Env.quiet 5 ["miner"]).world.cerr.text = "Usage: miner <BTC_ADDRESS>\n" := by
  have h := main_usage_error Env.quiet 5 ["miner"] (by decide)
  exact ⟨h.1, h.2.2.2.2.2.1 "miner" [] rfl⟩

/-! ## The evaluator: the draw never returns -/

theorem attemptRecord_ne_connecting (nonce : Int) : attemptRecord nonce ≠ connectingRecord := by
  unfold attemptRecord connectingRecord
  intro h
  have hmsg : "Mining with nonce: " ++ toString nonce = "Connecting to mining pool..." := by
    injection h
  have hdata := congrArg String.data hmsg
  simp at hdata

theorem throwInTry_std (what : String) : throwInTry (Exn.stdException what) = Pc.caught what := rfl

/-- C3 (as stated, refuted): an exception that is not derived from `std::exception`, raised
in the first pass of the loop, is matched by no handler: the worker ends in
`std::terminate`, it stays there, and no failure record was emitted. -/
theorem worker_foreign_exception_terminates :
    (sampleMiner.worker (Env.failingFirst 1 (Exn.other "int")) 3 World.init).pc = Pc.terminated ∧
    (sampleMiner.worker (Env.failingFirst 1 (Exn.other "int")) 3 World.init).world.trace =
      [connectingRecord] ∧
    (∀ fuel, (sampleMiner.worker (Env.failingFirst 1 (Exn.other "int")) (3 + fuel) World.init).pc
      = Pc.terminated) ∧
    (∀ fuel what, failureRecord what ∉
      (sampleMiner.worker (Env.failingFirst 1 (Exn.other "int")) (3 + fuel) World.init).world.trace) := by
  have h3 : sampleMiner.worker (Env.failingFirst 1 (Exn.other "int")) 3 World.init =
      { miner := sampleMiner, world := { World.init with trace := [connectingRecord] },
        pc := Pc.terminated, iter := 0 } := by decide
  have hall : ∀ fuel, sampleMiner.worker (Env.failingFirst 1 (Exn.other "int")) (3 + fuel) World.init =
      { miner := sampleMiner, world := { World.init with trace := [connectingRecord] },
        pc := Pc.terminated, iter := 0 } := by
    intro fuel
    unfold BitcoinMiner.worker at h3 ⊢
    have hs : (Env.failingFirst 1 (Exn.other "int")).sigint = none := rfl
    rw [hs] at h3 ⊢
    rw [exec_none_add, h3]
    exact exec_none_final _ _ _ rfl
  refine ⟨by rw [h3], by rw [h3], ?_, ?_⟩
  · intro fuel
    rw [hall]
  · intro fuel what
    rw [hall]
    simp [connectingRecord, failureRecord]

theorem raised_in_try (env : Env) (p : Proc) (e : Exn)
    (h : (p.pc = Pc.run ∧ (p.miner.runMiner (env.iter p.iter) p.world).exn = some e) ∨
         (p.pc = Pc.pace ∧ (env.iter p.iter).sleep = some e)) :
    BitcoinMiner.workerStep env p = { p with pc := throwInTry e } := by
  rcases h with ⟨hpc, hr⟩ | ⟨hpc, hs⟩
  · rw [workerStep_run env p hpc, (runMiner_raise _ _ _ _ hr).1]
  · unfold BitcoinMiner.workerStep
    simp only [hpc, hs]

theorem caught_two_statements (env : Env) (p : Proc) (what : String)
    (h : (p.pc = Pc.run ∧
            (p.miner.runMiner (env.iter p.iter) p.world).exn = some (Exn.stdException what)) ∨
         (p.pc = Pc.pace ∧ (env.iter p.iter).sleep = some (Exn.stdException what))) :
    BitcoinMiner.workerStep env p = { p with pc := Pc.caught what } ∧
    exec env none 2 p =
      { miner := p.miner,
        world := { p.world with trace := p.world.trace ++ [failureRecord what] },
        pc := Pc.test, iter := p.iter + 1 } := by
  have hstep : BitcoinMiner.workerStep env p = { p with pc := Pc.caught what } :=
    raised_in_try env p _ h
  refine ⟨hstep, ?_⟩
  rw [exec_none_succ, exec_none_succ, hstep]
  rfl

/-- C3 (amended): an exception raised inside the try block of a pass, by `runMiner` or by
the pacing sleep, goes where its type sends it.  If it is derived from `std::exception` it
is caught: the next statement is `logException`, which appends the record
"Exception thrown: <what>" and nothing else, after which the worker is back at the loop
condition with the object unchanged, and when the flag is clear the next pass begins.  If
it is of any other type no handler matches it: the worker ends in `std::terminate` at once,
with nothing logged, and stays ended. -/
theorem worker_exception_dispatch (env : Env) (p : Proc) (e : Exn)
    (h : (p.pc = Pc.run ∧ (p.miner.runMiner (env.iter p.iter) p.world).exn = some e) ∨
         (p.pc = Pc.pace ∧ (env.iter p.iter).sleep = some e)) :
    (∀ what, e = Exn.stdException what →
      BitcoinMiner.workerStep env p = { p with pc := Pc.caught what } ∧
      exec env none 2 p =
        { miner := p.miner,
          world := { p.world with trace := p.world.trace ++ [failureRecord what] },
          pc := Pc.test, iter := p.iter + 1 } ∧
      (p.miner.shutdownFlag = false → (exec env none 3 p).pc = Pc.run)) ∧
    (∀ descr, e = Exn.other descr →
      ∀ fuel, exec env none (fuel + 1) p = { p with pc := Pc.terminated }) := by
  constructor
  · intro what he
    subst he
    obtain ⟨hstep, h2⟩ := caught_two_statements env p what h
    refine ⟨hstep, h2, ?_⟩
    intro hflag
    rw [exec_none_succ_right, h2]
    simp [BitcoinMiner.workerStep, hflag]
  · intro descr he fuel
    subst he
    rw [exec_none_succ, raised_in_try env p _ h]
    exact exec_none_final _ _ _ rfl

theorem worker_exception_dispatch_witness :
    exec (Env.failingFirst 1 (Exn.stdException "random_device: unavailable")) none 2
        (sampleProc Pc.run) =
      { miner := sampleMiner,
        world := { (sampleProc Pc.run).world with
          trace := [failureRecord "random_device: unavailable"] },
        pc := Pc.test, iter := 1 } :=
  ((worker_exception_dispatch
    (Env.failingFirst 1 (Exn.stdException "random_device: unavailable")) (sampleProc Pc.run)
    (Exn.stdException "random_device: unavailable") (Or.inl ⟨rfl, by decide⟩)).1
      "random_device: unavailable" rfl).2.1

/-! ## The worker: SIGINT -/

theorem startMining_spawned (m : BitcoinMiner) (env : Env) (fuel : Nat) (w : World)
    (h : env.thread = none) :
    m.startMining env fuel w =
      joinWorker (m.worker env fuel
        { trace := w.trace ++ [Event.threadStart], cerr := w.cerr, sigint := true }) := by
  unfold BitcoinMiner.startMining
  rw [h]
  rfl

theorem joinWorker_miner (p : Proc) : (joinWorker p).miner = p.miner := by
  unfold joinWorker
  split <;> rfl

theorem joinWorker_normal (p : Proc) : (joinWorker p).flow = Flow.normal ↔ p.pc = Pc.returned := by
  unfold joinWorker
  cases hp : p.pc <;> simp

theorem joinWorker_trace (p : Proc) (h : p.pc ≠ Pc.returned) : (joinWorker p).world = p.world := by
  unfold joinWorker
  cases hp : p.pc <;> simp_all

theorem worker_interrupted (m : BitcoinMiner) (env : Env) (k n : Nat) (w : World)
    (h : env.sigint = some k) :
    m.worker env (k + 1 + n) w =
      exec env none n (deliverSigint
        (exec env none k { miner := m, world := w, pc := Pc.connect, iter := 0 })) := by
  unfold BitcoinMiner.worker
  rw [h, exec_some_split]

/-- C4 (as stated, refuted): with SIGINT delivered after two statements of the worker
(connecting done, loop condition tested, the first `runMiner` not yet entered), the worker
never returns and `startMining` never gets past `join`, whatever the number of statements
run: from the third on the handler has ended the process with `exit(0)`, and `shutdownFlag`
is still false. -/
theorem sigint_worker_never_returns :
    (∀ fuel, (sampleMiner.startMining (Env.interrupted 2) fuel World.init).flow ≠ Flow.normal) ∧
    (∀ fuel, Event.threadJoin ∉
      (sampleMiner.startMining (Env.interrupted 2) fuel World.init).world.trace) ∧
    (∀ fuel, sampleMiner.startMining (Env.interrupted 2) (3 + fuel) World.init =
      { flow := Flow.halt (Status.exited 0), miner := sampleMiner,
        world := { trace := [Event.threadStart, connectingRecord, terminatingRecord],
                   cerr := World.init.cerr, sigint := true } }) ∧
    (∀ fuel, (sampleMiner.startMining (Env.interrupted 2) fuel World.init).miner.shutdownFlag
      = false) := by
  have hlate : ∀ n : Nat, sampleMiner.startMining (Env.interrupted 2) (3 + n) World.init =
      { flow := Flow.halt (Status.exited 0), miner := sampleMiner,
        world := { trace := [Event.threadStart, connectingRecord, terminatingRecord],
                   cerr := World.init.cerr, sigint := true } } := by
    intro n
    rw [startMining_spawned _ _ _ _ rfl, show 3 + n = 2 + 1 + n by omega,
      worker_interrupted _ _ 2 n _ rfl]
    have hd : deliverSigint (exec (Env.interrupted 2) none 2
        { miner := sampleMiner,
          world := { trace := World.init.trace ++ [Event.threadStart], cerr := World.init.cerr,
                     sigint := true },
          pc := Pc.connect, iter := 0 }) =
        { miner := sampleMiner,
          world := { trace := [Event.threadStart, connectingRecord, terminatingRecord],
                     cerr := World.init.cerr, sigint := true },
          pc := Pc.exited 0, iter := 0 } := by decide
    rw [hd, exec_none_final]
    · rfl
    · rfl
  have hearly : ∀ fuel : Nat, fuel < 3 →
      (sampleMiner.startMining (Env.interrupted 2) fuel World.init).flow ≠ Flow.normal ∧
      Event.threadJoin ∉
        (sampleMiner.startMining (Env.interrupted 2) fuel World.init).world.trace := by
    intro fuel hf
    rcases fuel with _ | _ | _ | n
    · decide
    · decide
    · decide
    · omega
  refine ⟨?_, ?_, hlate, ?_⟩
  · intro fuel
    by_cases hf : fuel < 3
    · exact (hearly fuel hf).1
    · rw [show fuel = 3 + (fuel - 3) by omega, hlate]
      simp
  · intro fuel
    by_cases hf : fuel < 3
    · exact (hearly fuel hf).2
    · rw [show fuel = 3 + (fuel - 3) by omega, hlate]
      decide
  · intro fuel
    rw [startMining_spawned _ _ _ _ rfl, joinWorker_miner]
    unfold BitcoinMiner.worker
    rw [exec_miner]
    rfl

theorem workerStep_sigint (env : Env) (p : Proc) :
    (BitcoinMiner.workerStep env p).world.sigint = p.world.sigint := by
  by_cases hrun : p.pc = Pc.run
  · rw [workerStep_run env p hrun]
    split <;> rfl
  · unfold BitcoinMiner.workerStep
    cases hp : p.pc with
    | connect => rfl
    | test => simp only []; split <;> rfl
    | run => exact absurd hp hrun
    | pace => simp only []; split <;> rfl
    | caught what => rfl
    | returned => rfl
    | terminated => rfl
    | exited c => rfl
    | killed => rfl

theorem exec_none_sigint (env : Env) (n : Nat) (p : Proc) :
    (exec env none n p).world.sigint = p.world.sigint := by
  induction n generalizing p with
  | zero => rfl
  | succ n ih => rw [exec_none_succ, ih, workerStep_sigint]

theorem deliverSigint_live (p : Proc) (hs : p.world.sigint = true) (hl : p.pc.final = false) :
    deliverSigint p = sigintHandler p := by
  unfold deliverSigint
  cases hp : p.pc <;> simp_all [Pc.final]

/-- C4 (amended): a SIGINT that arrives while the worker is executing, after k of its
statements, runs the installed handler: the record "Terminating Miner, Please Wait.." is
appended to what the worker had logged by then and the process ends with `exit(0)`.  The
worker executes no further statement (so no further pass of the loop), `shutdownFlag` is
not written, the worker does not return and `join` does not complete. -/
theorem sigint_ends_worker (env : Env) (m : BitcoinMiner) (w : World) (k n : Nat)
    (hsig : env.sigint = some k) (hw : w.sigint = true)
    (hlive : (exec env none k { miner := m, world := w, pc := Pc.connect, iter := 0 }).pc.final
      = false) :
    m.worker env (k + 1 + n) w =
      sigintHandler (exec env none k { miner := m, world := w, pc := Pc.connect, iter := 0 }) ∧
    (m.worker env (k + 1 + n) w).pc = Pc.exited 0 ∧
    (m.worker env (k + 1 + n) w).world.trace =
      (exec env none k { miner := m, world := w, pc := Pc.connect, iter := 0 }).world.trace
        ++ [terminatingRecord] ∧
    (m.worker env (k + 1 + n) w).miner = m ∧
    (joinWorker (m.worker env (k + 1 + n) w)).flow = Flow.halt (Status.exited 0) := by
  have hrun : m.worker env (k + 1 + n) w =
      sigintHandler (exec env none k { miner := m, world := w, pc := Pc.connect, iter := 0 }) := by
    rw [worker_interrupted m env k n w hsig, deliverSigint_live _ _ hlive, exec_none_final]
    · rfl
    · rw [exec_none_sigint]
      exact hw
  refine ⟨hrun, ?_, ?_, ?_, ?_⟩
  · rw [hrun]
    rfl
  · rw [hrun]
    rfl
  · rw [hrun]
    show (exec env none k _).miner = m
    rw [exec_miner]
  · rw [hrun]
    rfl

theorem sigint_ends_worker_witness :
    (sampleMiner.worker (Env.interrupted 2) (2 + 1 + 10)
      { World.init with sigint := true }).pc = Pc.exited 0 ∧
    (sampleMiner.worker (Env.interrupted 2) (2 + 1 + 10)
      { World.init with sigint := true }).world.trace =
        (exec (Env.interrupted 2) none 2
          { miner := sampleMiner, world := { World.init with sigint := true },
            pc := Pc.connect, iter := 0 }).world.trace ++ [terminatingRecord] :=
  ⟨(sigint_ends_worker (Env.interrupted 2) sampleMiner { World.init with sigint := true } 2 10
    rfl rfl (by decide)).2.1,
   (sigint_ends_worker (Env.interrupted 2) sampleMiner { World.init with sigint := true } 2 10
    rfl rfl (by decide)).2.2.1⟩

/-! ## The launcher: starting the worker -/

theorem startMining_miner (m : BitcoinMiner) (env : Env) (fuel : Nat) (w : World) :
    (m.startMining env fuel w).miner = m := by
  unfold BitcoinMiner.startMining
  cases ht : env.thread with
  | none =>
    simp only []
    rw [joinWorker_miner]
    unfold BitcoinMiner.worker
    rw [exec_miner]
    rfl
  | some e =>
    cases e <;> rfl

theorem main_of_two (env : Env) (fuel : Nat) (prog address : String) (h : env.alloc = none) :
    main env fuel [prog, address] =
      match ((BitcoinMiner.BitcoinMiner address World.init).miner.startMining env fuel
          (BitcoinMiner.BitcoinMiner address World.init).world).flow with
      | Flow.normal =>
        { status := Status.returned EXIT_SUCCESS,
          miner := some (BitcoinMiner.BitcoinMiner address World.init).miner,
          world := ((BitcoinMiner.BitcoinMiner address World.init).miner.startMining env fuel
            (BitcoinMiner.BitcoinMiner address World.init).world).world }
      | Flow.threw e =>
        mainCatch e (some (BitcoinMiner.BitcoinMiner address World.init).miner)
          ((BitcoinMiner.BitcoinMiner address World.init).miner.startMining env fuel
            (BitcoinMiner.BitcoinMiner address World.init).world).world
      | Flow.halt st =>
        { status := st, miner := some (BitcoinMiner.BitcoinMiner address World.init).miner,
          world := ((BitcoinMiner.BitcoinMiner address World.init).miner.startMining env fuel
            (BitcoinMiner.BitcoinMiner address World.init).world).world } := by
  unfold main
  simp only [List.length_cons, List.length_nil, ne_eq, not_true_eq_false, dite_false, h]
  simp only [BitcoinMiner.BitcoinMiner, List.get, startMining_miner]

/-- C5 (as stated, refuted): when the `std::thread` constructor throws `std::system_error`,
`main` returns 0 (EXIT_SUCCESS); the failure was logged inside `startMining`, nothing was
written to `std::cerr` and no thread was started. -/
theorem thread_failure_exit_success :
    (sampleMiner.startMining Env.noThread 5 World.init).flow = Flow.normal ∧
    (main Env.noThread 5 ["miner", "addr1"]).status = Status.returned 0 ∧
    (main Env.noThread 5 ["miner", "addr1"]).world.trace =
      [Event.log Level.info "Bitcoin Wallet: addr1",
       Event.log Level.critical "Exception thrown: Resource temporarily unavailable"] ∧
    (main Env.noThread 5 ["miner", "addr1"]).world.cerr.text = "" := by
  decide

/-- C5 (amended): if constructing the `std::thread` throws an exception derived from
`std::exception`, `startMining` catches it, emits the record "Exception thrown: <what>" and
returns normally; nothing is propagated to `main`, which returns EXIT_SUCCESS (0) without
writing to `std::cerr`; no thread was started. -/
theorem thread_failure_swallowed (env : Env) (fuel : Nat) (prog address what : String)
    (halloc : env.alloc = none) (hthread : env.thread = some (Exn.stdException what)) :
    (∀ (m : BitcoinMiner) (w : World),
      m.startMining env fuel w =
        { flow := Flow.normal, miner := m,
          world := { trace := w.trace ++ [failureRecord what], cerr := w.cerr, sigint := true } }) ∧
    (main env fuel [prog, address]).status = Status.returned EXIT_SUCCESS ∧
    EXIT_SUCCESS = 0 ∧
    (main env fuel [prog, address]).world.trace =
      [Event.log Level.info ("Bitcoin Wallet: " ++ address), failureRecord what] ∧
    (main env fuel [prog, address]).world.cerr = World.init.cerr := by
  have hstart : ∀ (m : BitcoinMiner) (w : World),
      m.startMining env fuel w =
        { flow := Flow.normal, miner := m,
          world := { trace := w.trace ++ [failureRecord what], cerr := w.cerr, sigint := true } } := by
    intro m w
    unfold BitcoinMiner.startMining
    rw [hthread]
    rfl
  have hmain := main_of_two env fuel prog address halloc
  rw [hstart] at hmain
  simp only [] at hmain
  refine ⟨hstart, ?_, rfl, ?_, ?_⟩
  · rw [hmain]
  · rw [hmain]
    rfl
  · rw [hmain]
    rfl

theorem thread_failure_swallowed_witness :
    (main Env.noThread 5 ["miner", "addr1"]).status = Status.returned EXIT_SUCCESS :=
  (thread_failure_swallowed Env.noThread 5 "miner" "addr1" "Resource temporarily unavailable"
    rfl rfl).2.1

theorem main_miner_of_bad_argc (env : Env) (fuel : Nat) (argv : List String)
    (h : argv.length ≠ 2) : (main env fuel argv).miner = none := by
  rw [main_of_bad_argc env fuel argv h]

theorem main_miner_of_two (env : Env) (fuel : Nat) (prog address : String) :
    (main env fuel [prog, address]).miner =
      match env.alloc with
      | none => some { address := address, shutdownFlag := false,
                       ctx := { prevHash := "", jobId := "" } }
      | some _ => none := by
  cases ha : env.alloc with
  | none =>
    rw [main_of_two env fuel prog address ha]
    simp only []
    split
    · rfl
    · unfold mainCatch
      split <;> rfl
    · rfl
  | some e =>
    unfold main
    simp only [List.length_cons, List.length_nil, ne_eq, not_true_eq_false, dite_false, ha]
    unfold mainCatch
    split <;> rfl

/-! ## The worker: pacing -/

/-- C6: evaluated on a platform where obtaining the random value throws in the first two
passes, the worker calls `runMiner` twice with no sleep in between: after seven statements
the log is connecting, failure, failure, the worker is at the loop condition of the third
pass, and no sleep has happened at any statement so far.  In general a pass whose
`runMiner` raises an exception derived from `std::exception` goes from that `runMiner` to
the next one in three statements that log the failure and never sleep, whereas the
statement after a `runMiner` that returned is the 1-second sleep. -/
theorem failed_pass_not_paced :
    sampleMiner.worker (Env.failingFirst 2 (Exn.stdException "no entropy")) 7 World.init =
      { miner := sampleMiner,
        world := { World.init with
          trace := [connectingRecord, failureRecord "no entropy", failureRecord "no entropy"] },
        pc := Pc.test, iter := 2 } ∧
    (∀ fuel, fuel ≤ 7 → Event.sleep 1 ∉
      (sampleMiner.worker (Env.failingFirst 2 (Exn.stdException "no entropy")) fuel
        World.init).world.trace) ∧
    (∀ (env : Env) (p : Proc) (what : String), p.pc = Pc.run →
      p.miner.shutdownFlag = false →
      (p.miner.runMiner (env.iter p.iter) p.world).exn = some (Exn.stdException what) →
      exec env none 3 p =
        { miner := p.miner,
          world := { p.world with trace := p.world.trace ++ [failureRecord what] },
          pc := Pc.run, iter := p.iter + 1 }) ∧
    (∀ (env : Env) (p : Proc), p.pc = Pc.pace → (env.iter p.iter).sleep = none →
      BitcoinMiner.workerStep env p =
        { p with world := { p.world with trace := p.world.trace ++ [Event.sleep 1] },
                 pc := Pc.test, iter := p.iter + 1 }) := by
  refine ⟨by decide, ?_, ?_, ?_⟩
  · intro fuel hfuel
    rcases fuel with _ | _ | _ | _ | _ | _ | _ | _ | n
    · decide
    · decide
    · decide
    · decide
    · decide
    · decide
    · decide
    · decide
    · omega
  · intro env p what hpc hflag hraise
    rw [exec_none_succ_right, (caught_two_statements env p what (Or.inl ⟨hpc, hraise⟩)).2]
    simp [BitcoinMiner.workerStep, hflag]
  · intro env p hpc hsleep
    unfold BitcoinMiner.workerStep
    simp only [hpc, hsleep]

/-! ## The worker: consecutive failures -/

theorem failing_pass (env : Env) (p : Proc) (what : String)
    (hpc : p.pc = Pc.test) (hflag : p.miner.shutdownFlag = false)
    (hfail : (p.miner.runMiner (env.iter p.iter) p.world).exn = some (Exn.stdException what)) :
    exec env none 3 p =
      { miner := p.miner,
        world := { p.world with trace := p.world.trace ++ [failureRecord what] },
        pc := Pc.test, iter := p.iter + 1 } := by
  have h1 : BitcoinMiner.workerStep env p = { p with pc := Pc.run } := by
    unfold BitcoinMiner.workerStep
    simp [hpc, hflag]
  rw [exec_none_succ, h1]
  exact (caught_two_statements env { p with pc := Pc.run } what (Or.inl ⟨rfl, hfail⟩)).2

/-- C8: for every n, if `runMiner` raises an exception derived from `std::exception` in each
of n consecutive passes of the loop (the i-th with `what()` equal to `what i`), starting
at the loop condition with the flag clear, then those passes emit exactly the n failure
records "Exception thrown: <what i>", in pass order and nothing else; afterwards the worker
is again at the loop condition with the flag clear and its next statement enters the next
pass; at no statement in between had the worker ended. -/
theorem consecutive_failures_logged (env : Env) (p : Proc) (n : Nat) (what : Nat → String)
    (hpc : p.pc = Pc.test) (hflag : p.miner.shutdownFlag = false)
    (hfail : ∀ i, i < n → ∀ (m : BitcoinMiner) (w : World),
      (m.runMiner (env.iter (p.iter + i)) w).exn = some (Exn.stdException (what i))) :
    exec env none (3 * n) p =
      { miner := p.miner,
        world := { p.world with
          trace := p.world.trace ++ (List.range n).map (fun i => failureRecord (what i)) },
        pc := Pc.test, iter := p.iter + n } ∧
    (exec env none (3 * n + 1) p).pc = Pc.run ∧
    (∀ k, k ≤ 3 * n → (exec env none k p).pc.final = false) := by
  have hmain : exec env none (3 * n) p =
      { miner := p.miner,
        world := { p.world with
          trace := p.world.trace ++ (List.range n).map (fun i => failureRecord (what i)) },
        pc := Pc.test, iter := p.iter + n } := by
    induction n with
    | zero => simp [exec_zero, hpc.symm]
    | succ n ih =>
      have ih2 := ih (fun i hi => hfail i (Nat.lt_succ_of_lt hi))
      rw [show 3 * (n + 1) = 3 * n + 3 by ring, exec_none_add, ih2]
      have hq := failing_pass env
        { miner := p.miner,
          world := { p.world with
            trace := p.world.trace ++ (List.range n).map (fun i => failureRecord (what i)) },
          pc := Pc.test, iter := p.iter + n }
        (what n) rfl hflag (hfail n (Nat.lt_succ_self n) _ _)
      rw [hq]
      simp [List.range_succ, List.append_assoc, Nat.add_assoc]
  refine ⟨hmain, ?_, ?_⟩
  · rw [exec_none_succ_right, hmain]
    simp [BitcoinMiner.workerStep, hflag]
  · intro k hk
    by_contra hfin
    have hfin2 : (exec env none k p).pc.final = true := by
      simpa using hfin
    have hstay : exec env none (3 * n) p = exec env none k p := by
      rw [show 3 * n = k + (3 * n - k) by omega, exec_none_add, exec_none_final _ _ _ hfin2]
    rw [hmain] at hstay
    rw [← hstay] at hfin2
    simp [Pc.final] at hfin2

theorem consecutive_failures_logged_witness :
    exec (Env.failingFirst 5 (Exn.stdException "no entropy")) none (3 * 5) (sampleProc Pc.test) =
      { miner := sampleMiner,
        world := { (sampleProc Pc.test).world with
          trace := (sampleProc Pc.test).world.trace ++
            (List.range 5).map (fun _ => failureRecord "no entropy") },
        pc := Pc.test, iter := 0 + 5 } :=
  (consecutive_failures_logged (Env.failingFirst 5 (Exn.stdException "no entropy"))
    (sampleProc Pc.test) 5 (fun _ => "no entropy") rfl rfl
    (by
      intro i hi m w
      show (m.runMiner (if 0 + i < 5 then IterEnv.failing (Exn.stdException "no entropy")
        else IterEnv.quiet 7) w).exn = _
      rw [if_pos (by omega)]
      rfl)).1

/-! ## The worker: connecting comes first, once -/

theorem throwInTry_ne_connect (e : Exn) : throwInTry e ≠ Pc.connect := by
  cases e <;> simp [throwInTry]

theorem workerStep_past_connect (env : Env) (p : Proc) (h : p.pc ≠ Pc.connect) :
    (BitcoinMiner.workerStep env p).pc ≠ Pc.connect ∧
    ∃ tail, (BitcoinMiner.workerStep env p).world.trace = p.world.trace ++ tail ∧
      connectingRecord ∉ tail := by
  by_cases hrun : p.pc = Pc.run
  · rw [workerStep_run env p hrun]
    split
    · rename_i e _
      exact ⟨throwInTry_ne_connect e, [], by simp, by simp⟩
    · exact ⟨by simp, [], by simp, by simp⟩
  · unfold BitcoinMiner.workerStep
    cases hp : p.pc with
    | connect => exact absurd hp h
    | test =>
      simp only []
      split
      · exact ⟨by simp, [], by simp, by simp⟩
      · exact ⟨by simp, [], by simp, by simp⟩
    | run => exact absurd hp hrun
    | pace =>
      simp only []
      split
      · exact ⟨by simp, [Event.sleep 1], rfl, by simp [connectingRecord]⟩
      · rename_i e _
        exact ⟨throwInTry_ne_connect e, [], by simp, by simp⟩
    | caught what =>
      exact ⟨by simp [BitcoinMiner.logException], [failureRecord what], rfl,
        by simp [connectingRecord, failureRecord]⟩
    | returned => exact ⟨by simp [hp], [], by simp, by simp⟩
    | terminated => exact ⟨by simp [hp], [], by simp, by simp⟩
    | exited c => exact ⟨by simp [hp], [], by simp, by simp⟩
    | killed => exact ⟨by simp [hp], [], by simp, by simp⟩

theorem deliverSigint_cases (p : Proc) :
    (deliverSigint p = p ∧ p.pc.final = true) ∨ deliverSigint p = sigintHandler p ∨
      deliverSigint p = { p with pc := Pc.killed } := by
  unfold deliverSigint
  cases hp : p.pc <;> simp [Pc.final] <;> cases p.world.sigint <;> simp

theorem deliverSigint_past_connect (p : Proc) :
    (deliverSigint p).pc ≠ Pc.connect ∧
    ∃ tail, (deliverSigint p).world.trace = p.world.trace ++ tail ∧ connectingRecord ∉ tail := by
  rcases deliverSigint_cases p with ⟨h, hfin⟩ | h | h
  · rw [h]
    refine ⟨?_, [], by simp, by simp⟩
    intro hc
    rw [hc] at hfin
    simp [Pc.final] at hfin
  · rw [h]
    exact ⟨by simp [sigintHandler], [terminatingRecord], rfl, by decide⟩
  · rw [h]
    exact ⟨by simp, [], by simp, by simp⟩

theorem exec_past_connect (env : Env) (sig : Option Nat) (n : Nat) (p : Proc)
    (h : p.pc ≠ Pc.connect) :
    ∃ tail, (exec env sig n p).world.trace = p.world.trace ++ tail ∧ connectingRecord ∉ tail := by
  induction n generalizing p sig with
  | zero => exact ⟨[], by simp [exec_zero], by simp⟩
  | succ n ih =>
    have hstep : ∀ (sig2 : Option Nat) (q : Proc), q.pc ≠ Pc.connect →
        (∃ t1, q.world.trace = p.world.trace ++ t1 ∧ connectingRecord ∉ t1) →
        ∃ tail, (exec env sig2 n q).world.trace = p.world.trace ++ tail ∧
          connectingRecord ∉ tail := by
      intro sig2 q hq ⟨t1, ht1, hn1⟩
      obtain ⟨t2, ht2, hn2⟩ := ih sig2 q hq
      refine ⟨t1 ++ t2, by rw [ht2, ht1, List.append_assoc], ?_⟩
      simp [hn1, hn2]
    cases sig with
    | none =>
      exact hstep none _ (workerStep_past_connect env p h).1 (workerStep_past_connect env p h).2
    | some k =>
      cases k with
      | zero => exact hstep none _ (deliverSigint_past_connect p).1 (deliverSigint_past_connect p).2
      | succ k =>
        exact hstep (some k) _ (workerStep_past_connect env p h).1
          (workerStep_past_connect env p h).2

theorem worker_sigint_first (m : BitcoinMiner) (env : Env) (n : Nat) (w : World)
    (h : env.sigint = some 0) :
    m.worker env (n + 1) w =
      deliverSigint { miner := m, world := w, pc := Pc.connect, iter := 0 } := by
  have hsplit := worker_interrupted m env 0 n w h
  rw [show 0 + 1 + n = n + 1 by omega] at hsplit
  rw [hsplit, exec_zero]
  apply exec_none_final
  rcases deliverSigint_cases { miner := m, world := w, pc := Pc.connect, iter := 0 }
    with ⟨-, hfin⟩ | hd | hd
  · simp [Pc.final] at hfin
  · rw [hd]
    rfl
  · rw [hd]
    rfl

/-- C9 (as stated, refuted): with SIGINT delivered before the first statement of the
worker, the handler ends the process and `connectToPool` is never invoked: whatever the
number of statements allowed, the log of the started thread holds the terminating record
and no connecting record, and the worker has not proceeded to its loop. -/
theorem sigint_before_connect :
    sampleMiner.worker (Env.interrupted 0) 5 { World.init with sigint := true } =
      { miner := sampleMiner,
        world := { World.init with trace := [terminatingRecord], sigint := true },
        pc := Pc.exited 0, iter := 0 } ∧
    (sampleMiner.startMining (Env.interrupted 0) 5 World.init).world.trace =
      [Event.threadStart, terminatingRecord] ∧
    (∀ fuel, connectingRecord ∉
      (sampleMiner.worker (Env.interrupted 0) fuel { World.init with sigint := true }).world.trace) ∧
    (∀ fuel, (sampleMiner.worker (Env.interrupted 0) fuel
      { World.init with sigint := true }).pc ≠ Pc.test) := by
  have hall : ∀ n, sampleMiner.worker (Env.interrupted 0) (n + 1)
      { World.init with sigint := true } =
      { miner := sampleMiner,
        world := { World.init with trace := [terminatingRecord], sigint := true },
        pc := Pc.exited 0, iter := 0 } := by
    intro n
    rw [worker_sigint_first _ _ _ _ rfl]
    decide
  refine ⟨hall 4, by decide, ?_, ?_⟩
  · intro fuel
    cases fuel with
    | zero => decide
    | succ n =>
      rw [hall]
      decide
  · intro fuel
    cases fuel with
    | zero => decide
    | succ n =>
      rw [hall]
      decide

/-- C9 (amended): `connectToPool` cannot fail and changes nothing but the log, whatever the
state of the object.  In every run of `worker` in which SIGINT is not delivered before the
first statement, that statement is `connectToPool`, it leads to the loop condition, and the
log of the run is the record "Connecting to mining pool..." followed by records none of
which is that record: it is emitted exactly once and precedes every attempt record.  In a
run in which SIGINT is delivered before the first statement, the worker executes nothing:
the process ends in the signal and the log of the run has no connecting record. -/
theorem connect_once_first (env : Env) (m : BitcoinMiner) (w : World) (fuel : Nat)
    (hfuel : 0 < fuel) :
    (m.connectToPool w).exn = none ∧
    (m.connectToPool w).segv = false ∧
    (m.connectToPool w).miner = m ∧
    (m.connectToPool w).world.trace = w.trace ++ [connectingRecord] ∧
    BitcoinMiner.workerStep env { miner := m, world := w, pc := Pc.connect, iter := 0 } =
      { miner := m, world := { w with trace := w.trace ++ [connectingRecord] },
        pc := Pc.test, iter := 0 } ∧
    (env.sigint ≠ some 0 →
      ∃ tail, (m.worker env fuel w).world.trace = w.trace ++ connectingRecord :: tail ∧
        connectingRecord ∉ tail ∧
        ∀ nonce, attemptRecord nonce ∈ (m.worker env fuel w).world.trace →
          attemptRecord nonce ∈ w.trace ∨ attemptRecord nonce ∈ tail) ∧
    (env.sigint = some 0 →
      m.worker env fuel w =
        deliverSigint { miner := m, world := w, pc := Pc.connect, iter := 0 } ∧
      (m.worker env fuel w).pc.final = true ∧
      ∃ tail, (m.worker env fuel w).world.trace = w.trace ++ tail ∧
        connectingRecord ∉ tail) := by
  obtain ⟨n, rfl⟩ : ∃ n, fuel = n + 1 := ⟨fuel - 1, by omega⟩
  refine ⟨rfl, rfl, rfl, rfl, rfl, ?_, ?_⟩
  · intro hsig
    have hfirst : ∃ sig2, m.worker env (n + 1) w = exec env sig2 n
        { miner := m, world := { w with trace := w.trace ++ [connectingRecord] },
          pc := Pc.test, iter := 0 } := by
      unfold BitcoinMiner.worker
      cases hs : env.sigint with
      | none => exact ⟨none, rfl⟩
      | some k =>
        cases k with
        | zero => exact absurd hs hsig
        | succ k => exact ⟨some k, rfl⟩
    obtain ⟨sig2, hrun⟩ := hfirst
    obtain ⟨tail, htail, hnot⟩ := exec_past_connect env sig2 n
      { miner := m, world := { w with trace := w.trace ++ [connectingRecord] },
        pc := Pc.test, iter := 0 } (by simp)
    have htrace : (m.worker env (n + 1) w).world.trace =
        w.trace ++ connectingRecord :: tail := by
      rw [hrun, htail]
      simp
    refine ⟨tail, htrace, hnot, ?_⟩
    intro nonce hmem
    rw [htrace] at hmem
    simp only [List.mem_append, List.mem_cons] at hmem
    rcases hmem with h1 | h2 | h3
    · exact Or.inl h1
    · exact absurd h2 (attemptRecord_ne_connecting nonce)
    · exact Or.inr h3
  · intro hsig
    have hrun := worker_sigint_first m env n w hsig
    refine ⟨hrun, ?_, ?_⟩
    · rw [hrun]
      rcases deliverSigint_cases { miner := m, world := w, pc := Pc.connect, iter := 0 }
        with ⟨-, hfin⟩ | hd | hd
      · simp [Pc.final] at hfin
      · rw [hd]
        rfl
      · rw [hd]
        rfl
    · rw [hrun]
      exact (deliverSigint_past_connect _).2

theorem connect_once_first_witness :
    ∃ tail, (sampleMiner.worker (Env.failingFirst 1 (Exn.stdException "no entropy")) 7
          World.init).world.trace =
        World.init.trace ++ connectingRecord :: tail ∧
      connectingRecord ∉ tail ∧
      ∀ nonce, attemptRecord nonce ∈
          (sampleMiner.worker (Env.failingFirst 1 (Exn.stdException "no entropy")) 7
            World.init).world.trace →
        attemptRecord nonce ∈ World.init.trace ∨ attemptRecord nonce ∈ tail :=
  (connect_once_first (Env.failingFirst 1 (Exn.stdException "no entropy")) sampleMiner
    World.init 7 (by decide)).2.2.2.2.2.1 (by decide)

/-! ## The launcher: what `main` starts -/

theorem deliverSigint_sigint (p : Proc) : (deliverSigint p).world.sigint = p.world.sigint := by
  rcases deliverSigint_cases p with ⟨h, -⟩ | h | h
  · rw [h]
  · rw [h]
    rfl
  · rw [h]

theorem exec_sigint (env : Env) (sig : Option Nat) (n : Nat) (p : Proc) :
    (exec env sig n p).world.sigint = p.world.sigint := by
  induction n generalizing p sig with
  | zero => simp [exec_zero]
  | succ n ih =>
    cases sig with
    | none => rw [exec_none_succ, ih, workerStep_sigint]
    | some k =>
      cases k with
      | zero =>
        show (exec env none n (deliverSigint p)).world.sigint = _
        rw [ih, deliverSigint_sigint]
      | succ k =>
        show (exec env (some k) n (BitcoinMiner.workerStep env p)).world.sigint = _
        rw [ih, workerStep_sigint]

theorem worker_trace_extends (m : BitcoinMiner) (env : Env) (fuel : Nat) (w : World) :
    ∃ tail, (m.worker env fuel w).world.trace = w.trace ++ tail := by
  cases fuel with
  | zero => exact ⟨[], by simp [BitcoinMiner.worker, exec_zero]⟩
  | succ n =>
    by_cases hsig : env.sigint = some 0
    · rw [worker_sigint_first m env n w hsig]
      obtain ⟨tail, htail, -⟩ :=
        (deliverSigint_past_connect { miner := m, world := w, pc := Pc.connect, iter := 0 }).2
      exact ⟨tail, htail⟩
    · have hfirst : ∃ sig2, m.worker env (n + 1) w = exec env sig2 n
          { miner := m, world := { w with trace := w.trace ++ [connectingRecord] },
            pc := Pc.test, iter := 0 } := by
        unfold BitcoinMiner.worker
        cases hs : env.sigint with
        | none => exact ⟨none, rfl⟩
        | some k =>
          cases k with
          | zero => exact absurd hs hsig
          | succ k => exact ⟨some k, rfl⟩
      obtain ⟨sig2, hrun⟩ := hfirst
      obtain ⟨tail, htail, -⟩ := exec_past_connect env sig2 n
        { miner := m, world := { w with trace := w.trace ++ [connectingRecord] },
          pc := Pc.test, iter := 0 } (by simp)
      exact ⟨connectingRecord :: tail, by rw [hrun, htail]; simp⟩

theorem joinWorker_world (p : Proc) :
    (joinWorker p).world.sigint = p.world.sigint ∧
    ∃ tail, (joinWorker p).world.trace = p.world.trace ++ tail := by
  unfold joinWorker
  cases hp : p.pc <;> simp

theorem startMining_world (m : BitcoinMiner) (env : Env) (fuel : Nat) (w : World) :
    (m.startMining env fuel w).world.sigint = true ∧
    (env.thread = none → Event.threadStart ∈ (m.startMining env fuel w).world.trace) := by
  cases ht : env.thread with
  | none =>
    rw [startMining_spawned m env fuel w ht]
    obtain ⟨hsig, t1, ht1⟩ := joinWorker_world (m.worker env fuel
      { trace := w.trace ++ [Event.threadStart], cerr := w.cerr, sigint := true })
    obtain ⟨t2, ht2⟩ := worker_trace_extends m env fuel
      { trace := w.trace ++ [Event.threadStart], cerr := w.cerr, sigint := true }
    constructor
    · rw [hsig]
      unfold BitcoinMiner.worker
      rw [exec_sigint]
    · intro _
      rw [ht1, ht2]
      simp
  | some e =>
    unfold BitcoinMiner.startMining
    rw [ht]
    cases e <;> exact ⟨rfl, fun h => by simp at h⟩

theorem main_world_of_two (env : Env) (fuel : Nat) (prog address : String)
    (h : env.alloc = none) :
    (main env fuel [prog, address]).world.trace =
      ((BitcoinMiner.BitcoinMiner address World.init).miner.startMining env fuel
        (BitcoinMiner.BitcoinMiner address World.init).world).world.trace ∧
    (main env fuel [prog, address]).world.sigint =
      ((BitcoinMiner.BitcoinMiner address World.init).miner.startMining env fuel
        (BitcoinMiner.BitcoinMiner address World.init).world).world.sigint := by
  rw [main_of_two env fuel prog address h]
  split
  · exact ⟨rfl, rfl⟩
  · unfold mainCatch
    split <;> exact ⟨rfl, rfl⟩
  · exact ⟨rfl, rfl⟩

/-- C7 (as stated, refuted): given the two-element vector whose identity argument is the
empty string, `main` constructs a `BitcoinMiner` with the empty address and calls
`startMining`: the handler is installed, the worker thread is started and connects. -/
theorem main_accepts_empty_identity :
    (main Env.quiet 2 ["miner", ""]).miner =
      some { address := "", shutdownFlag := false, ctx := { prevHash := "", jobId := "" } } ∧
    (main Env.quiet 2 ["miner", ""]).world.trace =
      [Event.log Level.info "Bitcoin Wallet: ", Event.threadStart, connectingRecord] ∧
    (main Env.quiet 2 ["miner", ""]).world.sigint = true ∧
    (main Env.quiet 2 ["miner", ""]).world.cerr.text = "" := by
  decide

/-- C7 (amended): `main` constructs a `BitcoinMiner` exactly when the argument vector has
length 2 (and building the object does not throw), and the address it is constructed with
is `argv[1]` unchanged, whatever that string is, the empty string included; the object
starts with `shutdownFlag` false and an empty context.  Whenever it constructs one, it
calls `startMining` on it: the log of `main` is the log of that call, made in the world the
constructor left (the record "Bitcoin Wallet: <address>" alone), the SIGINT handler is
installed, and unless the thread constructor throws the worker thread is started. -/
theorem main_miner_address (env : Env) (fuel : Nat) (argv : List String) (m : BitcoinMiner) :
    ((main env fuel argv).miner = some m ↔
      (env.alloc = none ∧ argv.length = 2 ∧ argv.get? 1 = some m.address ∧
        m.shutdownFlag = false ∧ m.ctx = { prevHash := "", jobId := "" })) ∧
    ((main env fuel argv).miner = some m →
      (BitcoinMiner.BitcoinMiner m.address World.init).miner = m ∧
      (BitcoinMiner.BitcoinMiner m.address World.init).world.trace =
        [Event.log Level.info ("Bitcoin Wallet: " ++ m.address)] ∧
      (main env fuel argv).world.trace =
        (m.startMining env fuel (BitcoinMiner.BitcoinMiner m.address World.init).world).world.trace ∧
      (main env fuel argv).world.sigint = true ∧
      (env.thread = none → Event.threadStart ∈ (main env fuel argv).world.trace)) := by
  have hiff : (main env fuel argv).miner = some m ↔
      (env.alloc = none ∧ argv.length = 2 ∧ argv.get? 1 = some m.address ∧
        m.shutdownFlag = false ∧ m.ctx = { prevHash := "", jobId := "" }) := by
    by_cases hlen : argv.length = 2
    · obtain ⟨prog, rest, rfl⟩ : ∃ prog rest, argv = prog :: rest := by
        cases argv with
        | nil => simp at hlen
        | cons a t => exact ⟨a, t, rfl⟩
      obtain ⟨address, rest2, rfl⟩ : ∃ address rest2, rest = address :: rest2 := by
        cases rest with
        | nil => simp at hlen
        | cons a t => exact ⟨a, t, rfl⟩
      obtain rfl : rest2 = [] := by
        cases rest2 with
        | nil => rfl
        | cons a t => simp at hlen
      rw [main_miner_of_two]
      cases ha : env.alloc with
      | none =>
        simp only [Option.some.injEq, List.length_cons, List.length_nil, List.get?_cons_succ,
          List.get?_cons_zero, true_and]
        constructor
        · intro h
          subst h
          exact ⟨rfl, rfl, rfl⟩
        · rintro ⟨h1, h2, h3⟩
          cases m
          simp only [BitcoinMiner.mk.injEq]
          exact ⟨h1, h2.symm, h3.symm⟩
      | some e => simp
    · rw [main_miner_of_bad_argc env fuel argv hlen]
      simp [hlen]
  refine ⟨hiff, ?_⟩
  intro hm
  obtain ⟨halloc, hlen, haddr, hflag, hctx⟩ := hiff.1 hm
  have hctor : (BitcoinMiner.BitcoinMiner m.address World.init).miner = m := by
    cases m
    simp only [BitcoinMiner.BitcoinMiner, BitcoinMiner.mk.injEq] at hflag hctx ⊢
    exact ⟨trivial, hflag.symm, hctx.symm⟩
  obtain ⟨prog, hargv⟩ : ∃ prog, argv = [prog, m.address] := by
    match argv, hlen, haddr with
    | [a, b], _, haddr =>
      simp only [List.get?_cons_succ, List.get?_cons_zero, Option.some.injEq] at haddr
      exact ⟨a, by rw [haddr]⟩
  subst hargv
  obtain ⟨htrace, hsig⟩ := main_world_of_two env fuel prog m.address halloc
  rw [hctor] at htrace hsig
  have hstart := startMining_world m env fuel
    (BitcoinMiner.BitcoinMiner m.address World.init).world
  refine ⟨hctor, rfl, htrace, ?_, ?_⟩
  · rw [hsig]
    exact hstart.1
  · intro hthread
    rw [htrace]
    exact hstart.2 hthread

/-! ## The worker: cooperative cancellation -/

theorem runMiner_flag (m : BitcoinMiner) (ie : IterEnv) (w : World) :
    ({ m with shutdownFlag := true } : BitcoinMiner).runMiner ie w =
      { m.runMiner ie w with miner := { m with shutdownFlag := true } } := by
  rw [runMiner_eq, runMiner_eq]
  cases ie.gen <;> rfl

theorem workerStep_setShutdownFlag (env : Env) (q : Proc) (h : q.pc ≠ Pc.test) :
    BitcoinMiner.workerStep env (setShutdownFlag q) =
      setShutdownFlag (BitcoinMiner.workerStep env q) := by
  by_cases hrun : q.pc = Pc.run
  · rw [workerStep_run env q hrun, workerStep_run env (setShutdownFlag q) hrun]
    show (match (env.iter q.iter).gen with
      | Except.error e => { setShutdownFlag q with pc := throwInTry e }
      | Except.ok _ => { setShutdownFlag q with pc := Pc.killed }) = _
    cases (env.iter q.iter).gen <;> rfl
  · unfold BitcoinMiner.workerStep setShutdownFlag
    cases hp : q.pc with
    | connect => rfl
    | test => exact absurd hp h
    | run => exact absurd hp hrun
    | pace =>
      simp only []
      split <;> rfl
    | caught what => rfl
    | returned => simp [hp]
    | terminated => simp [hp]
    | exited c => simp [hp]
    | killed => simp [hp]

theorem workerStep_test_flag (env : Env) (q : Proc) (hpc : q.pc = Pc.test)
    (hflag : q.miner.shutdownFlag = true) :
    BitcoinMiner.workerStep env q = { q with pc := Pc.returned } := by
  unfold BitcoinMiner.workerStep
  simp [hpc, hflag]

/-- C10: the loop is cancellable cooperatively only.  A statement of the worker other than
the loop condition behaves the same whether or not `shutdownFlag` has been set (the flag is
read nowhere else).  So when the flag is set at any point p, and the run from p reaches the
loop condition next after n statements (n = 0: the flag is already set when tested), those
n statements run exactly as they would have, emitting the same records: the pass in flight
is completed, not interrupted.  At the loop condition the worker then leaves the loop and
returns, without starting another `runMiner`, and stays returned. -/
theorem shutdown_cooperative (env : Env) (p : Proc) (n : Nat)
    (hrun : ∀ k, k < n → (exec env none k p).pc ≠ Pc.test)
    (hdone : (exec env none n p).pc = Pc.test) :
    (∀ q : Proc, q.pc ≠ Pc.test →
      BitcoinMiner.workerStep env (setShutdownFlag q) =
        setShutdownFlag (BitcoinMiner.workerStep env q)) ∧
    (∀ k, k ≤ n → exec env none k (setShutdownFlag p) = setShutdownFlag (exec env none k p)) ∧
    (∀ fuel, exec env none (n + 1 + fuel) (setShutdownFlag p) =
      { setShutdownFlag (exec env none n p) with pc := Pc.returned }) := by
  have hsame : ∀ k, k ≤ n →
      exec env none k (setShutdownFlag p) = setShutdownFlag (exec env none k p) := by
    intro k
    induction k with
    | zero => intro _; rfl
    | succ k ih =>
      intro hk
      rw [exec_none_succ_right, ih (by omega), exec_none_succ_right,
        workerStep_setShutdownFlag env _ (hrun k (by omega))]
  refine ⟨workerStep_setShutdownFlag env, hsame, ?_⟩
  intro fuel
  rw [show n + 1 + fuel = (n + 1) + fuel by rfl, exec_none_add, exec_none_succ_right,
    hsame n (Nat.le_refl n),
    workerStep_test_flag env (setShutdownFlag (exec env none n p)) hdone rfl]
  exact exec_none_final _ _ _ rfl

theorem shutdown_cooperative_witness :
    exec (Env.failingFirst 1 (Exn.stdException "no entropy")) none (2 + 1 + 4)
        (setShutdownFlag (sampleProc Pc.run)) =
      { setShutdownFlag (exec (Env.failingFirst 1 (Exn.stdException "no entropy")) none 2
          (sampleProc Pc.run)) with pc := Pc.returned } :=
  (shutdown_cooperative (Env.failingFirst 1 (Exn.stdException "no entropy"))
    (sampleProc Pc.run) 2 (by decide) (by decide)).2.2 4

/-! ## The object is never written -/

/-- C11: `runMiner` leaves the object as it found it, whether it returns or throws:
`ctx.prevHash`, `ctx.jobId`, `address` and `shutdownFlag` after the call equal their values
before it.  Hence the context the constructor built (both strings empty) is still the
context after any number of statements of the worker, with or without a SIGINT. -/
theorem runMiner_keeps_context (env : Env) (sig : Option Nat) (n : Nat) (address : String)
    (w0 w : World) :
    (∀ (m : BitcoinMiner) (ie : IterEnv) (w1 : World),
      (m.runMiner ie w1).miner.ctx.prevHash = m.ctx.prevHash ∧
      (m.runMiner ie w1).miner.ctx.jobId = m.ctx.jobId ∧
      (m.runMiner ie w1).miner.address = m.address ∧
      (m.runMiner ie w1).miner.shutdownFlag = m.shutdownFlag) ∧
    (BitcoinMiner.BitcoinMiner address w0).miner.ctx = { prevHash := "", jobId := "" } ∧
    (exec env sig n
      { miner := (BitcoinMiner.BitcoinMiner address w0).miner, world := w, pc := Pc.connect,
        iter := 0 }).miner.ctx = { prevHash := "", jobId := "" } := by
  refine ⟨?_, rfl, ?_⟩
  · intro m ie w1
    rw [runMiner_miner]
    exact ⟨rfl, rfl, rfl, rfl⟩
  · rw [exec_miner]
    rfl

/-! ## The SIGINT handler -/

theorem deliverSigint_alive (p : Proc) (hs : p.world.sigint = true)
    (h1 : p.pc ≠ Pc.terminated) (h2 : ∀ c, p.pc ≠ Pc.exited c) (h3 : p.pc ≠ Pc.killed) :
    deliverSigint p = sigintHandler p := by
  unfold deliverSigint
  cases hp : p.pc <;> simp_all

/-- C12: `registerSignals` installs the handler; once it is installed, a SIGINT delivered
to the live process (wherever the worker stands, also after it returned) runs the handler,
which appends exactly the one info record "Terminating Miner, Please Wait.." and ends the
process with exit status 0, leaving the object untouched; from there no statement of the
worker runs any more: control never comes back to the loop. -/
theorem sigint_handler_exits (env : Env) (p : Proc) (hs : p.world.sigint = true)
    (h1 : p.pc ≠ Pc.terminated) (h2 : ∀ c, p.pc ≠ Pc.exited c) (h3 : p.pc ≠ Pc.killed) :
    (∀ (m : BitcoinMiner) (w : World), (m.registerSignals w).world.sigint = true) ∧
    (deliverSigint p).world.trace =
      p.world.trace ++ [Event.log Level.info "Terminating Miner, Please Wait.."] ∧
    (deliverSigint p).pc = Pc.exited 0 ∧
    (deliverSigint p).miner = p.miner ∧
    BitcoinMiner.workerStep env (deliverSigint p) = deliverSigint p ∧
    (∀ fuel, exec env none fuel (deliverSigint p) = deliverSigint p) := by
  have hd := deliverSigint_alive p hs h1 h2 h3
  refine ⟨fun _ _ => rfl, ?_, ?_, ?_, ?_, ?_⟩
  · rw [hd]
    rfl
  · rw [hd]
    rfl
  · rw [hd]
    rfl
  · rw [hd]
    exact workerStep_final env _ rfl
  · intro fuel
    rw [hd]
    exact exec_none_final env fuel _ rfl

theorem sigint_handler_exits_witness :
    (deliverSigint (sampleProc Pc.run)).world.trace =
      [Event.log Level.info "Terminating Miner, Please Wait.."] ∧
    (deliverSigint (sampleProc Pc.run)).pc = Pc.exited 0 := by
  have h := sigint_handler_exits Env.quiet (sampleProc Pc.run) rfl (by decide)
    (fun c hc => by cases hc) (by decide)
  exact ⟨h.2.1, h.2.2.1⟩

/-! ## The attempt record is never logged -/

theorem throwInTry_ne_returned (e : Exn) : throwInTry e ≠ Pc.returned := by
  cases e <;> simp [throwInTry]

theorem workerStep_not_returned (env : Env) (p : Proc) (hflag : p.miner.shutdownFlag = false)
    (hpc : p.pc ≠ Pc.returned) : (BitcoinMiner.workerStep env p).pc ≠ Pc.returned := by
  by_cases hrun : p.pc = Pc.run
  · rw [workerStep_run env p hrun]
    split
    · exact throwInTry_ne_returned _
    · simp
  · unfold BitcoinMiner.workerStep
    cases hp : p.pc with
    | connect => simp [BitcoinMiner.connectToPool]
    | test => simp [hflag]
    | run => exact absurd hp hrun
    | pace =>
      simp only []
      split
      · simp
      · exact throwInTry_ne_returned _
    | caught what => simp [BitcoinMiner.logException]
    | returned => exact absurd hp hpc
    | terminated => simp [hp]
    | exited c => simp [hp]
    | killed => simp [hp]

theorem deliverSigint_not_returned (p : Proc) (hpc : p.pc ≠ Pc.returned) :
    (deliverSigint p).pc ≠ Pc.returned := by
  rcases deliverSigint_cases p with ⟨h, -⟩ | h | h
  · rw [h]
    exact hpc
  · rw [h]
    simp [sigintHandler]
  · rw [h]
    simp

theorem exec_not_returned (env : Env) (sig : Option Nat) (n : Nat) (p : Proc)
    (hflag : p.miner.shutdownFlag = false) (hpc : p.pc ≠ Pc.returned) :
    (exec env sig n p).pc ≠ Pc.returned := by
  induction n generalizing p sig with
  | zero =>
    rw [exec_zero]
    exact hpc
  | succ n ih =>
    have hw : (BitcoinMiner.workerStep env p).miner.shutdownFlag = false := by
      rw [workerStep_miner]
      exact hflag
    have hd : (deliverSigint p).miner.shutdownFlag = false := by
      rw [deliverSigint_miner]
      exact hflag
    cases sig with
    | none => exact ih none _ hw (workerStep_not_returned env p hflag hpc)
    | some k =>
      cases k with
      | zero => exact ih none _ hd (deliverSigint_not_returned p hpc)
      | succ k => exact ih (some k) _ hw (workerStep_not_returned env p hflag hpc)

/-- C14: the constructor initialises `shutdownFlag` to false and no member function nor the
SIGINT handler writes it (each leaves the whole object as it was).  So in every state the
worker reaches from the constructed object, after any number of statements and with or
without a SIGINT, the flag is false; whenever the worker stands at the loop condition its
next statement enters the loop body; the worker is never in the state of having returned,
and `startMining`, once the thread is started, never gets past `join`. -/
theorem shutdownFlag_never_set (env : Env) (sig : Option Nat) (n fuel : Nat) (address : String)
    (w0 w : World) :
    (BitcoinMiner.BitcoinMiner address w0).miner.shutdownFlag = false ∧
    (∀ (m : BitcoinMiner) (w1 : World) (msg : String) (ie : IterEnv),
      (m.registerSignals w1).miner = m ∧ (m.connectToPool w1).miner = m ∧
      (m.runMiner ie w1).miner = m ∧ (m.logMessage msg w1).miner = m ∧
      (m.logError msg w1).miner = m ∧ (m.logException msg w1).miner = m ∧
      (m.startMining env fuel w1).miner = m ∧ (m.worker env fuel w1).miner = m) ∧
    (∀ p : Proc, (BitcoinMiner.workerStep env p).miner = p.miner ∧
      (sigintHandler p).miner = p.miner ∧ (deliverSigint p).miner = p.miner) ∧
    (exec env sig n
      { miner := (BitcoinMiner.BitcoinMiner address w0).miner, world := w, pc := Pc.connect,
        iter := 0 }).miner.shutdownFlag = false ∧
    ((exec env sig n
      { miner := (BitcoinMiner.BitcoinMiner address w0).miner, world := w, pc := Pc.connect,
        iter := 0 }).pc = Pc.test →
      (BitcoinMiner.workerStep env (exec env sig n
        { miner := (BitcoinMiner.BitcoinMiner address w0).miner, world := w, pc := Pc.connect,
          iter := 0 })).pc = Pc.run) ∧
    (exec env sig n
      { miner := (BitcoinMiner.BitcoinMiner address w0).miner, world := w, pc := Pc.connect,
        iter := 0 }).pc ≠ Pc.returned ∧
    (env.thread = none →
      ((BitcoinMiner.BitcoinMiner address w0).miner.startMining env fuel w).flow ≠ Flow.normal) := by
  have hflag : (exec env sig n
      { miner := (BitcoinMiner.BitcoinMiner address w0).miner, world := w, pc := Pc.connect,
        iter := 0 }).miner.shutdownFlag = false := by
    rw [exec_miner]
    rfl
  refine ⟨rfl, ?_, ?_, hflag, ?_, ?_, ?_⟩
  · intro m w1 msg ie
    refine ⟨rfl, rfl, runMiner_miner m ie w1, rfl, rfl, rfl, startMining_miner m env fuel w1, ?_⟩
    unfold BitcoinMiner.worker
    rw [exec_miner]
  · intro p
    exact ⟨workerStep_miner env p, rfl, deliverSigint_miner p⟩
  · intro htest
    unfold BitcoinMiner.workerStep
    simp [htest, hflag]
  · exact exec_not_returned env sig n _ rfl (by simp)
  · intro hthread
    rw [startMining_spawned _ _ _ _ hthread]
    intro hnormal
    rw [joinWorker_normal] at hnormal
    unfold BitcoinMiner.worker at hnormal
    exact exec_not_returned env env.sigint fuel _ rfl (by simp) hnormal

/-! ## The bounds of the distribution -/

/-- C15: the bounds `runMiner` passes to the distribution are 0 and -1: converted to the
32-bit `int` parameter type (modulo 2^32) the literal 0xFFFFFFFF is -1, so the lower bound
is greater than the upper bound and the precondition lower ≤ upper does not hold. -/
theorem dist_bounds_inverted :
    toInt32 0xFFFFFFFF = -1 ∧ distLower = 0 ∧ distUpper = -1 ∧ ¬ (distLower ≤ distUpper) ∧
    distUpper < distLower := by
  decide

/-! ## The download loop -/

theorem attempts_append (a b : List DEvent) : attempts (a ++ b) = attempts a ++ attempts b := by
  induction a with
  | nil => rfl
  | cons e es ih => cases e <;> simp [attempts, ih]

theorem log_attempts (d : ImageDownloader) (env : DEnv) (message : String) (w : DWorld) :
    attempts (d.log env message w).events = attempts w.events := by
  unfold ImageDownloader.log
  split
  · simp [attempts_append, attempts]
  · rfl

theorem performGetRequest_attempts (d : ImageDownloader) (env : DEnv) (url : String)
    (w : DWorld) : attempts (d.performGetRequest env url w).world.events = attempts w.events := by
  unfold ImageDownloader.performGetRequest
  cases env.curl w.gets url <;> simp [attempts_append, attempts, log_attempts]

theorem performGetRequest_exn (d : ImageDownloader) (env : DEnv) (url : String) (w : DWorld) :
    (d.performGetRequest env url w).exn = none ∨
    (d.performGetRequest env url w).exn = some (Exn.stdException "Failed to perform GET request.") := by
  unfold ImageDownloader.performGetRequest
  cases env.curl w.gets url <;> simp

theorem downloadImage_spec (d : ImageDownloader) (env : DEnv) (imageUrl outputName : String)
    (w : DWorld) :
    (d.downloadImage env imageUrl outputName w).exn = none ∧
    attempts (d.downloadImage env imageUrl outputName w).world.events =
      attempts w.events ++ [(imageUrl, outputName)] := by
  have hatt := performGetRequest_attempts d env imageUrl
    { w with events := w.events ++ [DEvent.call imageUrl outputName] }
  simp only [attempts_append, attempts] at hatt
  rcases performGetRequest_exn d env imageUrl
    { w with events := w.events ++ [DEvent.call imageUrl outputName] } with h | h
  · unfold ImageDownloader.downloadImage
    simp only [h]
    refine ⟨by simp, ?_⟩
    simp [log_attempts, attempts_append, attempts, hatt]
  · unfold ImageDownloader.downloadImage
    simp only [h]
    refine ⟨by simp, ?_⟩
    simp [log_attempts, hatt]

theorem downloadImagesFrom_spec (d : ImageDownloader) (env : DEnv) (links : List String)
    (i : Nat) (w : DWorld) :
    (d.downloadImagesFrom env links i w).exn = none ∧
    attempts (d.downloadImagesFrom env links i w).world.events =
      attempts w.events ++
        ((links.take ((toSizeT d.numImages).toNat - i)).enumFrom i).map d.attemptAt := by
  induction links generalizing i w with
  | nil => simp [ImageDownloader.downloadImagesFrom]
  | cons url rest ih =>
    unfold ImageDownloader.downloadImagesFrom
    have hnn : 0 ≤ toSizeT d.numImages := by
      unfold toSizeT
      exact Int.emod_nonneg _ (by norm_num)
    by_cases hlt : (i : Int) < toSizeT d.numImages
    · obtain ⟨hexn, hatt⟩ := downloadImage_spec d env url
        (d.query ++ "_" ++ toString (i + 1) ++ ".jpg") w
      obtain ⟨ihexn, ihatt⟩ := ih (i + 1)
        (d.downloadImage env url (d.query ++ "_" ++ toString (i + 1) ++ ".jpg") w).world
      have hsub : (toSizeT d.numImages).toNat - i = ((toSizeT d.numImages).toNat - (i + 1)) + 1 := by
        omega
      simp only [hlt, if_true, hexn]
      refine ⟨ihexn, ?_⟩
      rw [ihatt, hatt, hsub]
      simp [List.take, List.enumFrom, ImageDownloader.attemptAt]
    · have hzero : (toSizeT d.numImages).toNat - i = 0 := by omega
      simp [hlt, hzero]

/-- C16: evaluated with two links and `numImages = -1`, `downloadImages` attempts both
downloads, where the claimed count min(2, max(-1, 0)) is 0.  In general the loop attempts
the first min(|imageLinks|, numImages converted to `size_t`) links, in list order, the k-th
(from 1) under the name query + "_" + k + ".jpg", and a failed download never stops it; the
count is min(|imageLinks|, numImages) when numImages ≥ 0, and every link is attempted when
numImages is negative. -/
theorem downloadImages_negative_count :
    attempts ((sampleDownloader (-1)).downloadImages DEnv.sample DWorld.init).world.events =
      [("u1", "nature_1.jpg"), ("u2", "nature_2.jpg")] ∧
    min (sampleDownloader (-1)).imageLinks.length (max (-1 : Int) 0).toNat = 0 ∧
    (∀ (d : ImageDownloader) (env : DEnv) (w : DWorld),
      (d.downloadImages env w).exn = none ∧
      attempts (d.downloadImages env w).world.events =
        attempts w.events ++
          ((d.imageLinks.take (toSizeT d.numImages).toNat).enum).map d.attemptAt) ∧
    (∀ (d : ImageDownloader) (env : DEnv) (w : DWorld),
      0 ≤ d.numImages → d.numImages < 2 ^ 31 →
      (attempts (d.downloadImages env w).world.events).length =
        (attempts w.events).length + min d.imageLinks.length (max d.numImages 0).toNat) ∧
    (∀ (d : ImageDownloader) (env : DEnv) (w : DWorld),
      d.numImages < 0 → -2 ^ 31 ≤ d.numImages → d.imageLinks.length < 2 ^ 63 →
      (attempts (d.downloadImages env w).world.events).length =
        (attempts w.events).length + d.imageLinks.length) := by
  have hgen : ∀ (d : ImageDownloader) (env : DEnv) (w : DWorld),
      (d.downloadImages env w).exn = none ∧
      attempts (d.downloadImages env w).world.events =
        attempts w.events ++
          ((d.imageLinks.take (toSizeT d.numImages).toNat).enum).map d.attemptAt := by
    intro d env w
    have h := downloadImagesFrom_spec d env d.imageLinks 0 w
    simpa [ImageDownloader.downloadImages, List.enum] using h
  refine ⟨by decide, by decide, hgen, ?_, ?_⟩
  · intro d env w h0 h1
    rw [(hgen d env w).2]
    have hconv : toSizeT d.numImages = d.numImages := by
      unfold toSizeT
      exact Int.emod_eq_of_lt h0 (by omega)
    simp [hconv, List.enum, max_eq_left h0]
    exact Nat.min_comm _ _
  · intro d env w h0 h1 hlen
    rw [(hgen d env w).2]
    have hconv : toSizeT d.numImages = d.numImages + 2 ^ 64 := by
      unfold toSizeT
      omega
    simp [hconv, List.enum]
    omega

/-! ## Splitting a line -/

theorem extractUntil_not_mem (delim : Char) (l : List Char) :
    delim ∉ (extractUntil delim l).1 := by
  induction l with
  | nil => simp [extractUntil]
  | cons c cs ih =>
    unfold extractUntil
    by_cases hc : c = delim
    · simp [hc]
    · simp only [hc, if_false, List.mem_cons, not_or]
      exact ⟨fun h => hc h.symm, ih⟩

theorem extractUntil_some (delim : Char) (l after : List Char)
    (h : (extractUntil delim l).2 = some after) :
    l = (extractUntil delim l).1 ++ delim :: after := by
  induction l with
  | nil => simp [extractUntil] at h
  | cons c cs ih =>
    unfold extractUntil at h ⊢
    by_cases hc : c = delim
    · simp only [hc, if_true, Option.some.injEq] at h
      simp [hc, h]
    · simp only [hc, if_false] at h
      simp only [hc, if_false, List.cons_append]
      rw [← ih h]

theorem extractUntil_none (delim : Char) (l : List Char)
    (h : (extractUntil delim l).2 = none) :
    (extractUntil delim l).1 = l ∧ delim ∉ l := by
  induction l with
  | nil => simp [extractUntil]
  | cons c cs ih =>
    unfold extractUntil at h ⊢
    by_cases hc : c = delim
    · simp [hc] at h
    · simp only [hc, if_false] at h
      simp only [hc, if_false, List.mem_cons, not_or]
      exact ⟨by rw [(ih h).1], fun h2 => hc h2.symm, (ih h).2⟩

theorem extractUntil_of_not_mem (delim : Char) (l : List Char) (h : delim ∉ l) :
    extractUntil delim l = (l, none) := by
  induction l with
  | nil => rfl
  | cons c cs ih =>
    simp only [List.mem_cons, not_or] at h
    unfold extractUntil
    rw [if_neg (fun hc => h.1 hc.symm), ih h.2]

theorem extractUntil_takeWhile (delim : Char) (l : List Char) :
    (extractUntil delim l).1 = l.takeWhile (fun c => c ≠ delim) := by
  induction l with
  | nil => rfl
  | cons c cs ih =>
    unfold extractUntil
    by_cases hc : c = delim
    · simp [hc, List.takeWhile]
    · simp [hc, List.takeWhile, ih]

theorem getline_read (is : IStream) (str : List Char) (delim : Char)
    (h : (getline is str delim).1.fail = false) : delim ∉ (getline is str delim).2 := by
  unfold getline at h ⊢
  by_cases hg : is.good = true
  · simp only [hg, if_true] at h ⊢
    have hno := extractUntil_not_mem delim is.rest
    split
    · rename_i taken after heq
      rw [heq] at hno
      exact hno
    · rename_i taken heq
      rw [heq] at hno
      exact hno
  · simp [hg] at h

theorem splitLine_eq (line : List Char) (hnl : '\n' ∉ line) :
    splitLine line =
      ((extractUntil ',' line).1,
        match (extractUntil ',' line).2 with
        | some after => after
        | none => []) := by
  unfold splitLine getline istringstream IStream.good
  cases hx : extractUntil ',' line with
  | mk taken found =>
    cases found with
    | none => simp [hx]
    | some after =>
      have hline := extractUntil_some ',' line after (by rw [hx])
      have hafter : '\n' ∉ after := by
        intro hmem
        apply hnl
        rw [hline]
        simp [hmem]
      simp [hx, extractUntil_of_not_mem '\n' after hafter]

/-- C17: for every line that the loop head `std::getline(file, line)` of `processImages`
reads (from any state of the file stream), the split into (url, label) loses nothing: url
contains no comma and is the text of the line before its first comma (the whole line when
there is none); label is all the text after the first comma; if the line contains a comma,
url + "," + label is the line; if it contains none, url is the line and label is empty. -/
theorem split_lossless (file next : IStream) (prev line url label : List Char)
    (h : processImagesLine file prev = some (next, line, url, label)) :
    ',' ∉ url ∧
    url = line.takeWhile (fun c => c ≠ ',') ∧
    (',' ∈ line → line = url ++ ',' :: label) ∧
    (',' ∉ line → url = line ∧ label = []) ∧
    '\n' ∉ line := by
  unfold processImagesLine at h
  simp only [] at h
  by_cases hf : (getline file prev '\n').1.fail = true
  · simp [hf] at h
  · have hf2 : (getline file prev '\n').1.fail = false := by simpa using hf
    simp only [hf2, Bool.false_eq_true, if_false, Option.some.injEq, Prod.mk.injEq] at h
    obtain ⟨-, hline, hurl, hlabel⟩ := h
    have hnl : '\n' ∉ line := by
      rw [← hline]
      exact getline_read file prev '\n' hf2
    rw [hline] at hurl hlabel
    rw [splitLine_eq line hnl] at hurl hlabel
    simp only [] at hurl hlabel
    refine ⟨?_, ?_, ?_, ?_, hnl⟩
    · rw [← hurl]
      exact extractUntil_not_mem ',' line
    · rw [← hurl]
      exact extractUntil_takeWhile ',' line
    · intro hmem
      cases hx : (extractUntil ',' line).2 with
      | none => exact absurd hmem (extractUntil_none ',' line hx).2
      | some after =>
        rw [hx] at hlabel
        rw [← hurl, ← hlabel]
        exact extractUntil_some ',' line after hx
    · intro hnot
      have hx := extractUntil_of_not_mem ',' line hnot
      rw [hx] at hurl hlabel
      exact ⟨hurl.symm, hlabel.symm⟩

theorem split_lossless_witness :
    "u1,cat,dog".toList = "u1".toList ++ ',' :: "cat,dog".toList :=
  (split_lossless (istringstream "u1,cat,dog\nu2\n".toList)
    { rest := "u2\n".toList, eof := false, fail := false } [] "u1,cat,dog".toList "u1".toList
    "cat,dog".toList (by decide)).2.2.1 (by decide)

end KickAI
